import Mathlib

/-!
Shallow embedding of the vehicle-tracking / traffic-density engine of
`app/utils.py` (functions `_compute_iou` and `process_video`).

Modelling conventions:
  * pixel coordinates are `Int` (the code casts box coordinates with `map(int, ...)`);
  * Python floats (confidences, IoU values, density percentages) are modelled as `ℚ`;
  * the video I/O (decode, encode, drawing) is external; a run is a finite list of
    frames, each frame the finite list of raw detections the detector returned for it;
  * per-run mutable state becomes explicit state records threaded through folds.
-/

namespace TrafficDensity

/-- An axis-aligned box `(x1, y1, x2, y2)` in pixel space. -/
structure Box where
  x1 : Int
  y1 : Int
  x2 : Int
  y2 : Int
deriving DecidableEq, Repr

/-- Intersection area of two boxes: componentwise max of starts, min of ends,
width and height clamped at 0 (`utils.py` lines 13-19). -/
def interArea (a b : Box) : Int :=
  max 0 (min a.x2 b.x2 - max a.x1 b.x1) * max 0 (min a.y2 b.y2 - max a.y1 b.y1)

/-- Area of a single box with clamped sides (`utils.py` lines 20-21). -/
def boxArea (a : Box) : Int :=
  max 0 (a.x2 - a.x1) * max 0 (a.y2 - a.y1)

/-- Union area `area_a + area_b - inter_area` (`utils.py` line 22). -/
def unionArea (a b : Box) : Int :=
  boxArea a + boxArea b - interArea a b

/-- IoU of two boxes, `0` when the union area is not positive (`utils.py` `_compute_iou`). -/
def _compute_iou (a b : Box) : ℚ :=
  if unionArea a b > 0 then (interArea a b : ℚ) / (unionArea a b : ℚ) else 0

/-- Two boxes do not overlap: the intersection rectangle has non-positive width or height. -/
def Nonoverlapping (a b : Box) : Prop :=
  min a.x2 b.x2 - max a.x1 b.x1 ≤ 0 ∨ min a.y2 b.y2 - max a.y1 b.y1 ≤ 0

lemma interArea_comm (a b : Box) : interArea a b = interArea b a := by
  simp [interArea, min_comm, max_comm]

lemma unionArea_comm (a b : Box) : unionArea a b = unionArea b a := by
  simp [unionArea, interArea_comm]; ring

lemma interArea_nonneg (a b : Box) : 0 ≤ interArea a b :=
  mul_nonneg (le_max_left _ _) (le_max_left _ _)

lemma boxArea_nonneg (a : Box) : 0 ≤ boxArea a :=
  mul_nonneg (le_max_left _ _) (le_max_left _ _)

lemma interArea_le_boxArea_left (a b : Box) : interArea a b ≤ boxArea a := by
  unfold interArea boxArea
  apply mul_le_mul
  · exact max_le_max le_rfl (by omega)
  · exact max_le_max le_rfl (by omega)
  · exact le_max_left _ _
  · exact le_max_left _ _

lemma interArea_le_boxArea_right (a b : Box) : interArea a b ≤ boxArea b := by
  rw [interArea_comm]; exact interArea_le_boxArea_left b a

lemma interArea_le_unionArea (a b : Box) : interArea a b ≤ unionArea a b := by
  have h1 := interArea_le_boxArea_left a b
  have h2 := interArea_le_boxArea_right a b
  unfold unionArea; omega

lemma iou_nonneg (a b : Box) : 0 ≤ _compute_iou a b := by
  unfold _compute_iou
  split
  · apply div_nonneg
    · exact_mod_cast interArea_nonneg a b
    · have : (0 : Int) < unionArea a b := by assumption
      exact_mod_cast this.le
  · exact le_rfl

lemma iou_le_one (a b : Box) : _compute_iou a b ≤ 1 := by
  unfold _compute_iou
  split
  · rename_i h
    rw [div_le_one (by exact_mod_cast h)]
    exact_mod_cast interArea_le_unionArea a b
  · exact zero_le_one

lemma interArea_self (a : Box) : interArea a a = boxArea a := by
  simp [interArea, boxArea]

lemma boxArea_pos (a : Box) (hx : a.x1 < a.x2) (hy : a.y1 < a.y2) :
    0 < boxArea a := by
  unfold boxArea
  have h1 : (0 : Int) < max 0 (a.x2 - a.x1) := by omega
  have h2 : (0 : Int) < max 0 (a.y2 - a.y1) := by omega
  exact mul_pos h1 h2

/-- C8: IoU is symmetric; `iou(a,a) = 1` for non-degenerate boxes; IoU of
non-overlapping boxes is 0; the result always lies in `[0,1]`; the intersection
area is clamped non-negative; and the function returns 0 when the union area is zero. -/
theorem C8_iou_properties :
    (∀ a b : Box, _compute_iou a b = _compute_iou b a) ∧
    (∀ a : Box, a.x1 < a.x2 → a.y1 < a.y2 → _compute_iou a a = 1) ∧
    (∀ a b : Box, Nonoverlapping a b → _compute_iou a b = 0) ∧
    (∀ a b : Box, 0 ≤ _compute_iou a b ∧ _compute_iou a b ≤ 1) ∧
    (∀ a b : Box, 0 ≤ interArea a b) ∧
    (∀ a b : Box, unionArea a b = 0 → _compute_iou a b = 0) := by
  refine ⟨?_, ?_, ?_, ?_, interArea_nonneg, ?_⟩
  · intro a b
    unfold _compute_iou
    rw [interArea_comm, unionArea_comm]
  · intro a hx hy
    have hb := boxArea_pos a hx hy
    have hu : unionArea a a = boxArea a := by
      unfold unionArea; rw [interArea_self]; ring
    unfold _compute_iou
    rw [if_pos (by omega), interArea_self, hu, div_self (by exact_mod_cast hb.ne')]
  · intro a b h
    have hz : interArea a b = 0 := by
      unfold interArea
      rcases h with h | h
      · rw [max_eq_left h, zero_mul]
      · rw [max_eq_left h, mul_zero]
    unfold _compute_iou
    split
    · rw [hz]; simp
    · rfl
  · intro a b
    exact ⟨iou_nonneg a b, iou_le_one a b⟩
  · intro a b h
    unfold _compute_iou
    rw [if_neg (by omega)]

/-- Witness for C8 at a concrete non-degenerate box. -/
theorem C8_iou_properties_witness :
    _compute_iou ⟨0, 0, 10, 10⟩ ⟨0, 0, 10, 10⟩ = 1 :=
  C8_iou_properties.2.1 ⟨0, 0, 10, 10⟩ (by decide) (by decide)

/-! ## Detection filter (`utils.py` lines 132-156) -/

/-- The four vehicle classes of interest (keys of `vehicle_colors`, in its
insertion order: car, truck, bus, motorcycle). -/
inductive VClass where
  | car
  | truck
  | bus
  | motorcycle
deriving DecidableEq, Repr

/-- The fixed list of classes in the dictionary iteration order of the code. -/
def vclasses : List VClass := [.car, .truck, .bus, .motorcycle]

/-- `class_map`: COCO class id → vehicle class (`utils.py` lines 33-38). -/
def class_map (cls : Nat) : Option VClass :=
  if cls = 2 then some .car
  else if cls = 3 then some .motorcycle
  else if cls = 5 then some .bus
  else if cls = 7 then some .truck
  else none

/-- A raw detection as the detector reports it: box, class id, confidence. -/
structure RawDet where
  box : Box
  cls : Nat
  conf : ℚ
deriving DecidableEq, Repr

/-- A filtered detection kept in a class bucket: box and confidence. -/
abbrev Det := Box × ℚ

/-- Placeholder detection used for (never-reached) out-of-range list lookups. -/
def defaultDet : Det := (⟨0, 0, 0, 0⟩, 0)

/-- Whether a raw detection survives the per-detection filter
(`utils.py` lines 140-156): known vehicle class, confidence at least the
per-class threshold (motorcycles use the stricter `motorcycle_conf`), and
motorcycle boxes of clamped area above 5% of the frame area are dropped. -/
def accept (conf_global motorcycle_conf : ℚ) (frame_area : Nat) (d : RawDet) : Bool :=
  match class_map d.cls with
  | none => false
  | some vehicle_type =>
    let conf_threshold := if vehicle_type = VClass.motorcycle then motorcycle_conf else conf_global
    if d.conf < conf_threshold then false
    else
      let box_area := max 1 ((d.box.x2 - d.box.x1) * (d.box.y2 - d.box.y1))
      if vehicle_type = VClass.motorcycle ∧ (box_area : ℚ) > (0.05 : ℚ) * (frame_area : ℚ) then
        false
      else true

/-- The per-class detection buckets built for one frame
(`utils.py` lines 132-156): surviving detections, in detector order,
each keeping its box and confidence unmodified. -/
def detections_by_class (conf_global motorcycle_conf : ℚ) (frame_area : Nat)
    (raw : List RawDet) (c : VClass) : List Det :=
  raw.filterMap fun d =>
    if accept conf_global motorcycle_conf frame_area d ∧ class_map d.cls = some c then
      some (d.box, d.conf)
    else none

lemma detections_by_class_eq_filter (conf_global motorcycle_conf : ℚ) (frame_area : Nat)
    (raw : List RawDet) (c : VClass) :
    detections_by_class conf_global motorcycle_conf frame_area raw c =
      (raw.filter fun d =>
          accept conf_global motorcycle_conf frame_area d ∧ class_map d.cls = some c).map
        fun d => (d.box, d.conf) := by
  induction raw with
  | nil => rfl
  | cons d rest ih =>
    by_cases h : accept conf_global motorcycle_conf frame_area d ∧ class_map d.cls = some c
    · simp [detections_by_class, List.filterMap_cons, List.filter_cons, h] at *
      exact ih
    · simp [detections_by_class, List.filterMap_cons, List.filter_cons, h] at *
      exact ih

/-- C6: a raw detection survives the filter iff its class id maps to one of the
four vehicle classes, its confidence meets the per-class threshold, and (for
motorcycles) its box area is at most 5% of the frame area; survivors land in
their class bucket with box and confidence unmodified.  The hypotheses
`x1 < x2`, `y1 < y2` are the Detection data-model constraints of the spec. -/
theorem C6_detection_filter (conf_global motorcycle_conf : ℚ) (frame_area : Nat)
    (d : RawDet) (raw : List RawDet)
    (hx : d.box.x1 < d.box.x2) (hy : d.box.y1 < d.box.y2) :
    (accept conf_global motorcycle_conf frame_area d = true ↔
      ∃ c, class_map d.cls = some c ∧
        (if c = VClass.motorcycle then motorcycle_conf else conf_global) ≤ d.conf ∧
        (c = VClass.motorcycle →
          (((d.box.x2 - d.box.x1) * (d.box.y2 - d.box.y1) : Int) : ℚ) ≤
            (0.05 : ℚ) * (frame_area : ℚ))) ∧
    (∀ c, detections_by_class conf_global motorcycle_conf frame_area raw c =
      (raw.filter fun d =>
          accept conf_global motorcycle_conf frame_area d ∧ class_map d.cls = some c).map
        fun d => (d.box, d.conf)) := by
  constructor
  · have harea : (1 : Int) ≤ (d.box.x2 - d.box.x1) * (d.box.y2 - d.box.y1) := by
      have := mul_pos (a := d.box.x2 - d.box.x1) (b := d.box.y2 - d.box.y1)
        (by omega) (by omega)
      omega
    have hmax : max 1 ((d.box.x2 - d.box.x1) * (d.box.y2 - d.box.y1)) =
        (d.box.x2 - d.box.x1) * (d.box.y2 - d.box.y1) := by omega
    unfold accept
    cases hcm : class_map d.cls with
    | none => simp
    | some c =>
      simp only [hmax]
      constructor
      · intro h
        by_cases h1 : d.conf < (if c = VClass.motorcycle then motorcycle_conf else conf_global)
        · rw [if_pos h1] at h; exact absurd h (by simp)
        · rw [if_neg h1] at h
          by_cases h2 : c = VClass.motorcycle ∧
              ((((d.box.x2 - d.box.x1) * (d.box.y2 - d.box.y1) : Int) : ℚ)) >
                (0.05 : ℚ) * (frame_area : ℚ)
          · rw [if_pos h2] at h; exact absurd h (by simp)
          · refine ⟨c, rfl, not_lt.mp h1, ?_⟩
            intro hc
            by_contra hbig
            exact h2 ⟨hc, not_le.mp hbig⟩
      · rintro ⟨c', hc', hconf, hsmall⟩
        obtain rfl : c' = c := (Option.some_inj.mp hc').symm
        rw [if_neg (not_lt.mpr hconf), if_neg]
        rintro ⟨hm, hbig⟩
        exact absurd (hsmall hm) (not_le.mpr hbig)
  · intro c
    exact detections_by_class_eq_filter conf_global motorcycle_conf frame_area raw c

/-- Witness for C6: a confident car detection in a 100x100 frame survives. -/
theorem C6_detection_filter_witness :
    (accept (6/10) (3/4) 10000 ⟨⟨0, 0, 10, 10⟩, 2, 9/10⟩ = true ↔
      ∃ c, class_map 2 = some c ∧
        (if c = VClass.motorcycle then (3/4 : ℚ) else 6/10) ≤ 9/10 ∧
        (c = VClass.motorcycle →
          ((((10 : Int) - 0) * ((10 : Int) - 0) : Int) : ℚ) ≤
            (0.05 : ℚ) * ((10000 : Nat) : ℚ))) ∧
    (∀ c, detections_by_class (6/10) (3/4) 10000 [⟨⟨0, 0, 10, 10⟩, 2, 9/10⟩] c =
      ([⟨⟨0, 0, 10, 10⟩, 2, 9/10⟩].filter fun d =>
          accept (6/10) (3/4) 10000 d ∧ class_map d.cls = some c).map
        fun d => (d.box, d.conf)) :=
  C6_detection_filter (6/10) (3/4) 10000 ⟨⟨0, 0, 10, 10⟩, 2, 9/10⟩
    [⟨⟨0, 0, 10, 10⟩, 2, 9/10⟩] (by decide) (by decide)

/-! ## Track store and greedy matcher (`utils.py` lines 86-107, 158-207) -/

/-- Frames without update before a track is deleted (`utils.py` line 105). -/
def TRACK_TIMEOUT : Nat := 30

/-- Hits before a track is counted (`utils.py` line 107). -/
def CONFIRM_HITS : Nat := 3

/-- Maximum vehicles per lane for density calculation (`utils.py` line 101). -/
def MAX_VEHICLES_PER_LANE : Nat := 15

/-- Number of lanes (`utils.py` line 102). -/
def NUM_LANES : Nat := 3

/-- A track record as stored in `tracks[vtype]` (`utils.py` lines 193-199). -/
structure Track where
  id : Nat
  bbox : Box
  last_seen : Nat
  hits : Nat
  counted : Bool
deriving DecidableEq, Repr

/-- The inner detection scan of the greedy matcher (`utils.py` lines 170-178):
walk the detections with their indices, skipping used ones, keeping the best
strictly-improving IoU; `best` starts as `(none, 0)` (`best_j = -1, best_iou = 0.0`). -/
def findBestAux (tbox : Box) (used : List Nat) :
    List Det → Nat → Option Nat × ℚ → Option Nat × ℚ
  | [], _, best => best
  | d :: ds, j, best =>
    findBestAux tbox used ds (j + 1)
      (if j ∈ used then best
       else if _compute_iou tbox d.1 > best.2 then (some j, _compute_iou tbox d.1) else best)

/-- Best unused detection for a track box, with its IoU (`utils.py` lines 170-178). -/
def findBest (tbox : Box) (dets : List Det) (used : List Nat) : Option Nat × ℚ :=
  findBestAux tbox used dets 0 (none, 0)

/-- Dispatch on the scan result for one track (`utils.py` lines 179-187): if a
best unused detection exists and its IoU meets the threshold, replace the box,
set last-seen, bump hits, and fire the confirmation increment when an uncounted
track reaches `CONFIRM_HITS`. -/
def matchOneAux (iou_thresh : ℚ) (frame_idx : Nat) (dets : List Det) (t : Track) :
    Option Nat × ℚ → Track × Option Nat × Nat
  | (some j, best_iou) =>
    if best_iou ≥ iou_thresh then
      if ¬t.counted ∧ t.hits + 1 ≥ CONFIRM_HITS then
        ({ t with
            bbox := (dets.getD j defaultDet).1
            last_seen := frame_idx
            hits := t.hits + 1
            counted := true }, some j, 1)
      else
        ({ t with
            bbox := (dets.getD j defaultDet).1
            last_seen := frame_idx
            hits := t.hits + 1 }, some j, 0)
    else (t, none, 0)
  | (none, _) => (t, none, 0)

/-- Processing of one track of the store (`utils.py` lines 169-187).  Returns
the updated track, the index of the detection consumed (if any), and the
unique-count increment (0 or 1). -/
def matchOne (iou_thresh : ℚ) (frame_idx : Nat) (dets : List Det) (used : List Nat)
    (t : Track) : Track × Option Nat × Nat :=
  matchOneAux iou_thresh frame_idx dets t (findBest t.bbox dets used)

/-- The used-detection set after one track's step: the consumed index, if any,
is appended (`used_det.add(best_j)`, `utils.py` line 187). -/
def usedAfter (used : List Nat) : Track × Option Nat × Nat → List Nat
  | (_, some j, _) => used ++ [j]
  | (_, none, _) => used

/-- The greedy pass over the surviving tracks in store order
(`utils.py` lines 167-187), threading the used-detection set.  Returns the
updated tracks (same order), the final used set, and the total unique-count
increment of the pass. -/
def matchAllAux (iou_thresh : ℚ) (frame_idx : Nat) (dets : List Det) :
    List Track → List Nat → List Track × List Nat × Nat
  | [], used => ([], used, 0)
  | t :: ts, used =>
    let r := matchOne iou_thresh frame_idx dets used t
    let rest := matchAllAux iou_thresh frame_idx dets ts (usedAfter used r)
    (r.1 :: rest.1, rest.2.1, r.2.2 + rest.2.2)

/-- Greedy matching starting from an empty used set (`used_det = set()`, line 167). -/
def matchAll (iou_thresh : ℚ) (frame_idx : Nat) (dets : List Det) (tracks : List Track) :
    List Track × List Nat × Nat :=
  matchAllAux iou_thresh frame_idx dets tracks []

/-- Creation of tracks for detections left unmatched (`utils.py` lines 189-200):
each gets the next sequential per-class id, the detection box, hits 1,
counted false, last-seen the current frame. -/
def createNewAux (frame_idx : Nat) (used : List Nat) :
    List Det → Nat → Nat → List Track × Nat
  | [], _, next_id => ([], next_id)
  | d :: ds, j, next_id =>
    if j ∈ used then createNewAux frame_idx used ds (j + 1) next_id
    else
      let rest := createNewAux frame_idx used ds (j + 1) (next_id + 1)
      ({ id := next_id, bbox := d.1, last_seen := frame_idx, hits := 1, counted := false }
         :: rest.1,
       rest.2)

/-- Track creation over the whole detection list (`utils.py` lines 189-200). -/
def createNew (frame_idx : Nat) (dets : List Det) (used : List Nat) (next_id : Nat) :
    List Track × Nat :=
  createNewAux frame_idx used dets 0 next_id

/-- Per-class tracking state: live tracks, next fresh id, unique count
(`utils.py` lines 87-89, per class). -/
structure ClassState where
  tracks : List Track
  next_id : Nat
  unique : Nat
deriving Repr

/-- Initial per-class state: no tracks, ids start at 1, count 0 (`utils.py` lines 87-89). -/
def initClassState : ClassState := ⟨[], 1, 0⟩

/-- One frame of per-class work (`utils.py` lines 159-200): age out stale
tracks, greedily match survivors, create tracks for unmatched detections. -/
def stepClass (iou_thresh : ℚ) (frame_idx : Nat) (dets : List Det) (cs : ClassState) :
    ClassState :=
  let fresh_tracks := cs.tracks.filter fun t => frame_idx - t.last_seen ≤ TRACK_TIMEOUT
  let m := matchAll iou_thresh frame_idx dets fresh_tracks
  let c := createNew frame_idx dets m.2.1 cs.next_id
  { tracks := m.1 ++ c.1, next_id := c.2, unique := cs.unique + m.2.2 }

/-! ## Run-level state and aggregation (`utils.py` lines 91-104, 202-241, 282-305) -/

/-- Whole-run mutable state threaded through the frame loop. -/
structure RunState where
  states : VClass → ClassState
  max_total_concurrent : Nat
  density_series : List ℚ
  accepted_conf_sum : ℚ
  accepted_conf_count : Nat
  frame_idx : Nat

/-- Run state at stream start (`utils.py` lines 87-104). -/
def initRunState : RunState :=
  { states := fun _ => initClassState
    max_total_concurrent := 0
    density_series := []
    accepted_conf_sum := 0
    accepted_conf_count := 0
    frame_idx := 0 }

/-- A frame's filtered-detection total, summed over the four class buckets
(`total_this_frame`, `utils.py` line 203 accumulated per class). -/
def frameTotal (conf_global motorcycle_conf : ℚ) (frame_area : Nat)
    (raw : List RawDet) : Nat :=
  (vclasses.map fun c =>
    (detections_by_class conf_global motorcycle_conf frame_area raw c).length).sum

/-- A frame's sum of accepted-detection confidences (`utils.py` lines 205-207). -/
def frameConfSum (conf_global motorcycle_conf : ℚ) (frame_area : Nat)
    (raw : List RawDet) : ℚ :=
  (vclasses.map fun c =>
    ((detections_by_class conf_global motorcycle_conf frame_area raw c).map Prod.snd).sum).sum

/-- Density percentage for a frame total: `min(100, total / capacity * 100)`
with capacity `15 × 3` (`utils.py` lines 239-240, 286-287). -/
def density_pct (total : Nat) : ℚ :=
  min 100 ((total : ℚ) / ((MAX_VEHICLES_PER_LANE * NUM_LANES : Nat) : ℚ) * 100)

/-- One iteration of the main frame loop (`utils.py` lines 109-276), with the
drawing and lane-display work (display-only) omitted. -/
def stepFrame (conf_global motorcycle_conf iou_thresh : ℚ) (frame_area : Nat)
    (sample_every : Nat) (st : RunState) (raw : List RawDet) : RunState :=
  let total_this_frame := frameTotal conf_global motorcycle_conf frame_area raw
  { states := fun c =>
      stepClass iou_thresh st.frame_idx
        (detections_by_class conf_global motorcycle_conf frame_area raw c) (st.states c)
    max_total_concurrent :=
      if total_this_frame > st.max_total_concurrent then total_this_frame
      else st.max_total_concurrent
    density_series :=
      if st.frame_idx % sample_every = 0 then
        st.density_series ++ [density_pct total_this_frame]
      else st.density_series
    accepted_conf_sum :=
      st.accepted_conf_sum + frameConfSum conf_global motorcycle_conf frame_area raw
    accepted_conf_count := st.accepted_conf_count + total_this_frame
    frame_idx := st.frame_idx + 1 }

/-- The summary record returned at stream end (`utils.py` lines 291-303). -/
structure RunResult where
  total_vehicles : Nat
  density : ℚ
  vehicle_counts : VClass → Nat
  density_series : List ℚ
  avg_confidence : ℚ
  low_confidence : Bool

/-- The tracking/aggregation core of `process_video` (`utils.py` lines 26-305),
with video I/O externalized: a run is the list of per-frame raw detection
lists.  Raises (returns `.error`) when zero frames were processed
(`utils.py` lines 282-283); otherwise returns the summary record. -/
def process_video (conf_global motorcycle_conf iou_thresh : ℚ) (fps : Nat)
    (frame_area : Nat) (frames : List (List RawDet)) : Except String RunResult :=
  let sample_every := max 1 (fps / 5)
  let final := frames.foldl
    (stepFrame conf_global motorcycle_conf iou_thresh frame_area sample_every) initRunState
  if frames.length = 0 then Except.error "No frames were processed from the video"
  else
    let avg_conf : ℚ :=
      if final.accepted_conf_count = 0 then 0
      else final.accepted_conf_sum / (final.accepted_conf_count : ℚ)
    Except.ok
      { total_vehicles := (vclasses.map fun c => (final.states c).unique).sum
        density := density_pct final.max_total_concurrent
        vehicle_counts := fun c => (final.states c).unique
        density_series := final.density_series
        avg_confidence := avg_conf
        low_confidence := decide (avg_conf < 0.55) }

/-! ## Run-level fold lemmas -/

lemma foldFrames_frame_idx (cg mc it : ℚ) (fa s : Nat) :
    ∀ (frames : List (List RawDet)) (st : RunState),
      (frames.foldl (stepFrame cg mc it fa s) st).frame_idx = st.frame_idx + frames.length := by
  intro frames
  induction frames with
  | nil => intro st; simp
  | cons f fs ih =>
    intro st
    simp only [List.foldl_cons, ih, stepFrame, List.length_cons]
    omega

lemma if_gt_eq_max (m T : Nat) : (if T > m then T else m) = max m T := by
  rcases Nat.lt_or_ge m T with h | h
  · rw [if_pos h, Nat.max_eq_right h.le]
  · rw [if_neg (by omega), Nat.max_eq_left h]

lemma foldFrames_max (cg mc it : ℚ) (fa s : Nat) :
    ∀ (frames : List (List RawDet)) (st : RunState),
      (frames.foldl (stepFrame cg mc it fa s) st).max_total_concurrent =
        (frames.map (frameTotal cg mc fa)).foldl max st.max_total_concurrent := by
  intro frames
  induction frames with
  | nil => intro st; simp
  | cons f fs ih =>
    intro st
    simp only [List.foldl_cons, ih, stepFrame, List.map_cons]
    rw [if_gt_eq_max]

lemma foldFrames_conf_sum (cg mc it : ℚ) (fa s : Nat) :
    ∀ (frames : List (List RawDet)) (st : RunState),
      (frames.foldl (stepFrame cg mc it fa s) st).accepted_conf_sum =
        st.accepted_conf_sum + (frames.map (frameConfSum cg mc fa)).sum := by
  intro frames
  induction frames with
  | nil => intro st; simp
  | cons f fs ih =>
    intro st
    simp only [List.foldl_cons, ih, stepFrame, List.map_cons, List.sum_cons]
    ring

lemma foldFrames_conf_count (cg mc it : ℚ) (fa s : Nat) :
    ∀ (frames : List (List RawDet)) (st : RunState),
      (frames.foldl (stepFrame cg mc it fa s) st).accepted_conf_count =
        st.accepted_conf_count + (frames.map (frameTotal cg mc fa)).sum := by
  intro frames
  induction frames with
  | nil => intro st; simp
  | cons f fs ih =>
    intro st
    simp only [List.foldl_cons, ih, stepFrame, List.map_cons, List.sum_cons]
    omega

lemma foldFrames_states (cg mc it : ℚ) (fa s : Nat) :
    ∀ (frames : List (List RawDet)) (st : RunState) (c : VClass),
      (frames.foldl (stepFrame cg mc it fa s) st).states c =
        (frames.foldl
          (fun (p : Nat × ClassState) raw =>
            (p.1 + 1, stepClass it p.1 (detections_by_class cg mc fa raw c) p.2))
          (st.frame_idx, st.states c)).2 := by
  intro frames
  induction frames with
  | nil => intro st c; simp
  | cons f fs ih =>
    intro st c
    simp only [List.foldl_cons, ih, stepFrame]

/-- The subsequence of density samples the loop records (`utils.py` lines 237-241)
when the frame counter runs from `base` over the given frames. -/
def sampledSeries (cg mc : ℚ) (fa s : Nat) : Nat → List (List RawDet) → List ℚ
  | _, [] => []
  | base, f :: fs =>
    (if base % s = 0 then [density_pct (frameTotal cg mc fa f)] else []) ++
      sampledSeries cg mc fa s (base + 1) fs

lemma foldFrames_series (cg mc it : ℚ) (fa s : Nat) :
    ∀ (frames : List (List RawDet)) (st : RunState),
      (frames.foldl (stepFrame cg mc it fa s) st).density_series =
        st.density_series ++ sampledSeries cg mc fa s st.frame_idx frames := by
  intro frames
  induction frames with
  | nil => intro st; simp [sampledSeries]
  | cons f fs ih =>
    intro st
    simp only [List.foldl_cons, ih, stepFrame, sampledSeries]
    by_cases h : st.frame_idx % s = 0
    · rw [if_pos h, if_pos h, List.append_assoc]
    · rw [if_neg h, if_neg h, List.nil_append]

/-! ## C3: empty run -/

/-- C3: a run over zero frames produces the `No frames were processed` error and
no result record. -/
theorem C3_empty_run_fails (conf_global motorcycle_conf iou_thresh : ℚ)
    (fps frame_area : Nat) :
    process_video conf_global motorcycle_conf iou_thresh fps frame_area [] =
      Except.error "No frames were processed from the video" := rfl

/-! ## C4: final density and total -/

lemma density_pct_eq (total : Nat) :
    density_pct total = min 100 (100 * (total : ℚ) / 45) := by
  unfold density_pct MAX_VEHICLES_PER_LANE NUM_LANES
  norm_num
  ring_nf

/-- C4: for a non-empty run the result's density is
`min(100, 100 · M / 45)` where `M` is the maximum over frames of the
filtered-detection total, and `total_vehicles` is the sum of the four
per-class unique counts. -/
theorem C4_final_density_and_total (conf_global motorcycle_conf iou_thresh : ℚ)
    (fps frame_area : Nat) (frames : List (List RawDet)) (h : frames ≠ []) :
    ∃ r, process_video conf_global motorcycle_conf iou_thresh fps frame_area frames =
        Except.ok r ∧
      r.density =
        min 100 (100 *
          (((frames.map (frameTotal conf_global motorcycle_conf frame_area)).foldl max 0 : Nat) : ℚ)
          / 45) ∧
      r.total_vehicles = (vclasses.map fun c => r.vehicle_counts c).sum := by
  unfold process_video
  rw [if_neg (by simpa using fun hlen => h (List.length_eq_zero.mp hlen))]
  refine ⟨_, rfl, ?_, rfl⟩
  rw [foldFrames_max, density_pct_eq]
  simp [initRunState]

/-! ## C9: average confidence and low-confidence flag -/

lemma accept_class_map {cg mc : ℚ} {fa : Nat} {d : RawDet}
    (h : accept cg mc fa d = true) : ∃ c0, class_map d.cls = some c0 := by
  unfold accept at h
  cases hcm : class_map d.cls with
  | none => rw [hcm] at h; simp at h
  | some c0 => exact ⟨c0, rfl⟩

lemma frameConfSum_cons (cg mc : ℚ) (fa : Nat) (d : RawDet) (rest : List RawDet) :
    frameConfSum cg mc fa (d :: rest) =
      (if accept cg mc fa d then d.conf else 0) + frameConfSum cg mc fa rest := by
  by_cases ha : accept cg mc fa d = true
  · obtain ⟨c0, hcm⟩ := accept_class_map ha
    cases c0 <;>
      simp [frameConfSum, vclasses, detections_by_class, List.filterMap_cons, hcm, ha] <;> ring
  · simp only [Bool.not_eq_true] at ha
    simp [frameConfSum, vclasses, detections_by_class, List.filterMap_cons, ha]

lemma frameTotal_cons (cg mc : ℚ) (fa : Nat) (d : RawDet) (rest : List RawDet) :
    frameTotal cg mc fa (d :: rest) =
      (if accept cg mc fa d then 1 else 0) + frameTotal cg mc fa rest := by
  by_cases ha : accept cg mc fa d = true
  · obtain ⟨c0, hcm⟩ := accept_class_map ha
    cases c0 <;>
      simp [frameTotal, vclasses, detections_by_class, List.filterMap_cons, hcm, ha] <;> omega
  · simp only [Bool.not_eq_true] at ha
    simp [frameTotal, vclasses, detections_by_class, List.filterMap_cons, ha]

lemma frameConfSum_eq_filter (cg mc : ℚ) (fa : Nat) (raw : List RawDet) :
    frameConfSum cg mc fa raw =
      ((raw.filter fun d => accept cg mc fa d).map RawDet.conf).sum := by
  induction raw with
  | nil => simp [frameConfSum, vclasses, detections_by_class]
  | cons d rest ih =>
    rw [frameConfSum_cons, ih, List.filter_cons]
    by_cases ha : accept cg mc fa d = true
    · simp [ha]
    · simp only [Bool.not_eq_true] at ha
      simp [ha]

lemma frameTotal_eq_filter (cg mc : ℚ) (fa : Nat) (raw : List RawDet) :
    frameTotal cg mc fa raw = (raw.filter fun d => accept cg mc fa d).length := by
  induction raw with
  | nil => simp [frameTotal, vclasses, detections_by_class]
  | cons d rest ih =>
    rw [frameTotal_cons, ih, List.filter_cons]
    by_cases ha : accept cg mc fa d = true
    · simp [ha]; omega
    · simp only [Bool.not_eq_true] at ha
      simp [ha]

/-- C9: the result's average confidence is the sum of the confidences of all
accepted detections of the run divided by their count, 0 when none was
accepted; the low-confidence flag holds iff that average is below 0.55. -/
theorem C9_average_confidence (conf_global motorcycle_conf iou_thresh : ℚ)
    (fps frame_area : Nat) (frames : List (List RawDet)) (h : frames ≠ []) :
    ∃ r, process_video conf_global motorcycle_conf iou_thresh fps frame_area frames =
        Except.ok r ∧
      (let confs :=
        (frames.map fun raw =>
          (raw.filter fun d => accept conf_global motorcycle_conf frame_area d).map
            RawDet.conf).flatten
       r.avg_confidence =
        if confs.length = 0 then 0 else confs.sum / (confs.length : ℚ)) ∧
      (r.low_confidence = true ↔ r.avg_confidence < 0.55) := by
  unfold process_video
  rw [if_neg (by simpa using fun hlen => h (List.length_eq_zero.mp hlen))]
  refine ⟨_, rfl, ?_, ?_⟩
  · have hsum :
        (frames.foldl (stepFrame conf_global motorcycle_conf iou_thresh frame_area
          (max 1 (fps / 5))) initRunState).accepted_conf_sum =
        ((frames.map fun raw =>
          (raw.filter fun d => accept conf_global motorcycle_conf frame_area d).map
            RawDet.conf).flatten).sum := by
      rw [foldFrames_conf_sum, List.sum_flatten]
      simp only [initRunState, zero_add, List.map_map]
      congr 1
      apply List.map_congr_left
      intro raw _
      exact frameConfSum_eq_filter conf_global motorcycle_conf frame_area raw
    have hcount :
        (frames.foldl (stepFrame conf_global motorcycle_conf iou_thresh frame_area
          (max 1 (fps / 5))) initRunState).accepted_conf_count =
        ((frames.map fun raw =>
          (raw.filter fun d => accept conf_global motorcycle_conf frame_area d).map
            RawDet.conf).flatten).length := by
      rw [foldFrames_conf_count, List.length_flatten]
      simp only [initRunState, zero_add, List.map_map]
      congr 1
      apply List.map_congr_left
      intro raw _
      rw [Function.comp_apply, List.length_map]
      exact frameTotal_eq_filter conf_global motorcycle_conf frame_area raw
    simp only [hsum, hcount]
  · exact decide_eq_true_iff

/-- Witness for C9 on a one-frame run with a single accepted car detection. -/
theorem C9_average_confidence_witness :
    ∃ r, process_video (6/10) (3/4) (3/10) 30 10000 [[⟨⟨0, 0, 10, 10⟩, 2, 9/10⟩]] =
        Except.ok r ∧
      (let confs :=
        ([[⟨⟨0, 0, 10, 10⟩, 2, 9/10⟩]].map fun raw =>
          (raw.filter fun d => accept (6/10) (3/4) 10000 d).map RawDet.conf).flatten
       r.avg_confidence =
        if confs.length = 0 then 0 else confs.sum / (confs.length : ℚ)) ∧
      (r.low_confidence = true ↔ r.avg_confidence < 0.55) :=
  C9_average_confidence (6/10) (3/4) (3/10) 30 10000 [[⟨⟨0, 0, 10, 10⟩, 2, 9/10⟩]]
    (by decide)

/-- Witness for C4 on the same concrete run. -/
theorem C4_final_density_and_total_witness :
    ∃ r, process_video (6/10) (3/4) (3/10) 30 10000 [[⟨⟨0, 0, 10, 10⟩, 2, 9/10⟩]] =
        Except.ok r ∧
      r.density =
        min 100 (100 *
          ((([[⟨⟨0, 0, 10, 10⟩, 2, 9/10⟩]].map
              (frameTotal (6/10) (3/4) 10000)).foldl max 0 : Nat) : ℚ) / 45) ∧
      r.total_vehicles = (vclasses.map fun c => r.vehicle_counts c).sum :=
  C4_final_density_and_total (6/10) (3/4) (3/10) 30 10000 [[⟨⟨0, 0, 10, 10⟩, 2, 9/10⟩]]
    (by decide)

/-! ## C5: density timeline -/

lemma ceil_step (s b : Nat) (hs : 0 < s) :
    (b + 1 + s - 1) / s = (b + s - 1) / s + (if b % s = 0 then 1 else 0) := by
  obtain ⟨q, r, hqr, hr⟩ : ∃ q r, b = s * q + r ∧ r < s :=
    ⟨b / s, b % s, (Nat.div_add_mod b s).symm, Nat.mod_lt b hs⟩
  subst hqr
  have hmul : s * (q + 1) = s * q + s := Nat.mul_succ s q
  by_cases h0 : r = 0
  · subst h0
    have hmod : (s * q + 0) % s = 0 := by simp [Nat.mul_mod_right]
    rw [if_pos hmod]
    have e1 : s * q + 0 + 1 + s - 1 = s * (q + 1) := by omega
    have e2 : s * q + 0 + s - 1 = s * q + (s - 1) := by omega
    rw [e1, e2, Nat.mul_div_cancel_left _ hs, Nat.mul_add_div hs,
       Nat.div_eq_of_lt (by omega)]
  · have hmod : (s * q + r) % s ≠ 0 := by
      rw [Nat.mul_add_mod, Nat.mod_eq_of_lt hr]; exact h0
    rw [if_neg hmod]
    have e1 : s * q + r + 1 + s - 1 = s * (q + 1) + r := by omega
    have e2 : s * q + r + s - 1 = s * q + (r + s - 1) := by omega
    have e3 : (r + s - 1) / s = 1 :=
      Nat.div_eq_of_lt_le (k := 1) (by omega) (by omega)
    rw [e1, e2, Nat.mul_add_div hs, Nat.mul_add_div hs, Nat.div_eq_of_lt hr, e3]

lemma sampledSeries_length (cg mc : ℚ) (fa s : Nat) (hs : 0 < s) :
    ∀ (frames : List (List RawDet)) (b : Nat),
      (sampledSeries cg mc fa s b frames).length + (b + s - 1) / s =
        (b + frames.length + s - 1) / s := by
  intro frames
  induction frames with
  | nil => intro b; simp [sampledSeries]
  | cons f fs ih =>
    intro b
    have hstep := ceil_step s b hs
    have ihb := ih (b + 1)
    have hre : b + (f :: fs).length + s - 1 = b + 1 + fs.length + s - 1 := by
      simp only [List.length_cons]; omega
    rw [hre]
    simp only [sampledSeries, List.length_append]
    by_cases h : b % s = 0
    · rw [if_pos h] at *
      simp only [List.length_cons, List.length_nil] at *
      omega
    · rw [if_neg h] at *
      simp only [List.length_nil] at *
      omega

lemma sampledSeries_length_zero (cg mc : ℚ) (fa s : Nat) (hs : 0 < s)
    (frames : List (List RawDet)) :
    (sampledSeries cg mc fa s 0 frames).length = (frames.length + s - 1) / s := by
  have h := sampledSeries_length cg mc fa s hs frames 0
  rw [Nat.zero_add, Nat.zero_add] at h
  have hz : (s - 1) / s = 0 := Nat.div_eq_of_lt (by omega)
  omega

lemma sampledSeries_append (cg mc : ℚ) (fa s : Nat) :
    ∀ (xs ys : List (List RawDet)) (b : Nat),
      sampledSeries cg mc fa s b (xs ++ ys) =
        sampledSeries cg mc fa s b xs ++ sampledSeries cg mc fa s (b + xs.length) ys := by
  intro xs
  induction xs with
  | nil => intro ys b; simp [sampledSeries]
  | cons x xs ih =>
    intro ys b
    have hre : b + 1 + xs.length = b + (x :: xs).length := by
      simp only [List.length_cons]; omega
    simp only [List.cons_append, sampledSeries, List.append_eq]
    rw [ih ys (b + 1), hre, List.append_assoc]

lemma index_mul_lt (s N k : Nat) (hs : 0 < s) (hk : k < (N + s - 1) / s) : k * s < N := by
  have h1 : ((N + s - 1) / s) * s ≤ N + s - 1 := Nat.div_mul_le_self _ _
  have h2 : (k + 1) * s ≤ ((N + s - 1) / s) * s := Nat.mul_le_mul_right _ hk
  have h3 : k * s + s ≤ N + s - 1 := by
    calc k * s + s = (k + 1) * s := by ring
    _ ≤ ((N + s - 1) / s) * s := h2
    _ ≤ N + s - 1 := h1
  generalize hK : k * s = K at h3 ⊢
  omega

lemma ceil_mul_of_dvd (s N : Nat) (hs : 0 < s) (h : N % s = 0) :
    ((N + s - 1) / s) * s = N := by
  obtain ⟨q, hq⟩ : ∃ q, N = s * q :=
    ⟨N / s, by have := Nat.div_add_mod N s; omega⟩
  subst hq
  have e2 : s * q + s - 1 = s * q + (s - 1) := by omega
  rw [e2, Nat.mul_add_div hs, Nat.div_eq_of_lt (by omega), Nat.add_zero, Nat.mul_comm]

lemma sampledSeries_map_form (cg mc : ℚ) (fa s : Nat) (hs : 0 < s) :
    ∀ frames : List (List RawDet),
      sampledSeries cg mc fa s 0 frames =
        (List.range ((frames.length + s - 1) / s)).map
          fun k => density_pct (frameTotal cg mc fa (frames.getD (k * s) [])) := by
  intro frames
  induction frames using List.reverseRecOn with
  | nil =>
    have hz : (0 + s - 1) / s = 0 := Nat.div_eq_of_lt (by omega)
    simp only [sampledSeries, List.length_nil, hz, List.range_zero, List.map_nil]
  | append_singleton xs x ih =>
    have hstep := ceil_step s xs.length hs
    rw [sampledSeries_append]
    simp only [List.length_append, List.length_cons, List.length_nil]
    have hN1 : xs.length + (0 + 1) + s - 1 = xs.length + 1 + s - 1 := by omega
    rw [hN1]
    by_cases h : xs.length % s = 0
    · rw [if_pos h] at hstep
      rw [hstep, List.range_succ, List.map_append]
      have hhead :
          sampledSeries cg mc fa s (0 + xs.length) [x] =
            [density_pct (frameTotal cg mc fa x)] := by
        simp only [sampledSeries, Nat.zero_add, if_pos h, List.append_nil]
      rw [hhead, ih]
      congr 1
      · apply List.map_congr_left
        intro k hk
        rw [List.mem_range] at hk
        by_cases hNz : xs.length = 0
        · rw [hNz] at hk
          have : (0 + s - 1) / s = 0 := Nat.div_eq_of_lt (by omega)
          omega
        · have hlt : k * s < xs.length := index_mul_lt s xs.length k hs hk
          rw [List.getD_append _ _ _ _ hlt]
      · simp only [List.map_cons, List.map_nil]
        have hgs : ((xs.length + s - 1) / s) * s = xs.length := ceil_mul_of_dvd s _ hs h
        rw [hgs, List.getD_append_right _ _ _ _ le_rfl]
        simp
    · rw [if_neg h] at hstep
      have hhead : sampledSeries cg mc fa s (0 + xs.length) [x] = [] := by
        simp only [sampledSeries, Nat.zero_add, if_neg h, List.append_nil]
      rw [hhead, List.append_nil, hstep, Nat.add_zero, ih]
      apply List.map_congr_left
      intro k hk
      rw [List.mem_range] at hk
      have hlt : k * s < xs.length := index_mul_lt s xs.length k hs hk
      rw [List.getD_append _ _ _ _ hlt]

lemma density_pct_nonneg (total : Nat) : 0 ≤ density_pct total := by
  unfold density_pct MAX_VEHICLES_PER_LANE NUM_LANES
  rw [le_min_iff]
  norm_num
  positivity

lemma density_pct_le_100 (total : Nat) : density_pct total ≤ 100 :=
  min_le_left _ _

lemma ceil_div_cast (N s : Nat) (hs : 0 < s) :
    (((N + s - 1) / s : Nat) : ℤ) = ⌈(N : ℚ) / (s : ℚ)⌉ := by
  have hb : s * ((N + s - 1) / s) + (N + s - 1) % s = N + s - 1 :=
    Nat.div_add_mod (N + s - 1) s
  have hr : (N + s - 1) % s < s := Nat.mod_lt _ hs
  have hub : N ≤ s * ((N + s - 1) / s) := by
    generalize hG : (N + s - 1) / s = g at *
    generalize hM : (N + s - 1) % s = m at *
    generalize hP : s * g = P at *
    omega
  have hlb : s * ((N + s - 1) / s) < N + s := by
    generalize hG : (N + s - 1) / s = g at *
    generalize hM : (N + s - 1) % s = m at *
    generalize hP : s * g = P at *
    omega
  generalize hG : (N + s - 1) / s = g at hub hlb ⊢
  have hsq : (0 : ℚ) < (s : ℚ) := by exact_mod_cast hs
  have hubq : (N : ℚ) ≤ (s : ℚ) * (g : ℚ) := by exact_mod_cast hub
  have hlbq : (s : ℚ) * (g : ℚ) < (N : ℚ) + (s : ℚ) := by exact_mod_cast hlb
  rw [eq_comm, Int.ceil_eq_iff]
  constructor
  · push_cast
    have hd : ((g : ℚ) - 1) * (s : ℚ) < (N : ℚ) := by nlinarith
    have := (lt_div_iff₀ hsq).mpr hd
    linarith
  · push_cast
    rw [div_le_iff₀ hsq]
    nlinarith

/-- C5: for an `N ≥ 1` frame run with sampling period `max(1, fps // 5)` the
density timeline has exactly `⌈N / sample_every⌉` entries; entry `k` is
`min(100, 100 · frame_total / 45)` for sample frame `k · sample_every`, and
every entry lies in `[0, 100]`. -/
theorem C5_density_timeline (conf_global motorcycle_conf iou_thresh : ℚ)
    (fps frame_area : Nat) (frames : List (List RawDet)) (h : frames ≠ []) :
    ∃ r, process_video conf_global motorcycle_conf iou_thresh fps frame_area frames =
        Except.ok r ∧
      r.density_series.length = (frames.length + max 1 (fps / 5) - 1) / max 1 (fps / 5) ∧
      (r.density_series.length : ℤ) =
        ⌈(frames.length : ℚ) / ((max 1 (fps / 5) : Nat) : ℚ)⌉ ∧
      ∀ k, k < r.density_series.length →
        r.density_series.getD k 0 =
          density_pct (frameTotal conf_global motorcycle_conf frame_area
            (frames.getD (k * max 1 (fps / 5)) [])) ∧
        0 ≤ r.density_series.getD k 0 ∧ r.density_series.getD k 0 ≤ 100 := by
  have hs : 0 < max 1 (fps / 5) := by omega
  unfold process_video
  rw [if_neg (by simpa using fun hlen => h (List.length_eq_zero.mp hlen))]
  refine ⟨_, rfl, ?_, ?_, ?_⟩
  · simp only [foldFrames_series, initRunState, List.nil_append]
    exact sampledSeries_length_zero _ _ _ _ hs frames
  · simp only [foldFrames_series, initRunState, List.nil_append]
    rw [sampledSeries_length_zero _ _ _ _ hs frames]
    exact ceil_div_cast frames.length _ hs
  · intro k hk
    simp only [foldFrames_series, initRunState, List.nil_append] at hk ⊢
    rw [sampledSeries_length_zero _ _ _ _ hs frames] at hk
    rw [sampledSeries_map_form _ _ _ _ hs frames]
    have hget :
        ((List.range ((frames.length + max 1 (fps / 5) - 1) / max 1 (fps / 5))).map
          fun k => density_pct (frameTotal conf_global motorcycle_conf frame_area
            (frames.getD (k * max 1 (fps / 5)) []))).getD k 0 =
        density_pct (frameTotal conf_global motorcycle_conf frame_area
          (frames.getD (k * max 1 (fps / 5)) [])) := by
      rw [List.getD_eq_getElem?_getD, List.getElem?_map, List.getElem?_range hk]
      rfl
    rw [hget]
    exact ⟨rfl, density_pct_nonneg _, density_pct_le_100 _⟩

/-- Witness for C5 on a concrete 5-frame run at 30 fps. -/
theorem C5_density_timeline_witness :
    ∃ r, process_video (6/10) (3/4) (3/10) 30 10000
          (List.replicate 5 [⟨⟨0, 0, 10, 10⟩, 2, 9/10⟩]) = Except.ok r ∧
      r.density_series.length =
        ((List.replicate 5 [(⟨⟨0, 0, 10, 10⟩, 2, 9/10⟩ : RawDet)]).length +
          max 1 (30 / 5) - 1) / max 1 (30 / 5) ∧
      (r.density_series.length : ℤ) =
        ⌈(((List.replicate 5 [(⟨⟨0, 0, 10, 10⟩, 2, 9/10⟩ : RawDet)]).length : ℚ)) /
          ((max 1 (30 / 5) : Nat) : ℚ)⌉ ∧
      ∀ k, k < r.density_series.length →
        r.density_series.getD k 0 =
          density_pct (frameTotal (6/10) (3/4) 10000
            ((List.replicate 5 [(⟨⟨0, 0, 10, 10⟩, 2, 9/10⟩ : RawDet)]).getD
              (k * max 1 (30 / 5)) [])) ∧
        0 ≤ r.density_series.getD k 0 ∧ r.density_series.getD k 0 ≤ 100 :=
  C5_density_timeline (6/10) (3/4) (3/10) 30 10000
    (List.replicate 5 [⟨⟨0, 0, 10, 10⟩, 2, 9/10⟩]) (by decide)

/-! ## Characterization of the greedy detection scan -/

/-- Invariant of the running best `(best_j, best_iou)` after the scan has
processed detection indices `< j`:  `none` means every unused processed index
has IoU 0; `some m` means `m` is the first processed unused index attaining
the (positive) running maximum. -/
def BestInv (tbox : Box) (used : List Nat) (dets : List Det) (j : Nat) :
    Option Nat × ℚ → Prop
  | (none, v) => v = 0 ∧
      ∀ k, k < j → k ∉ used → _compute_iou tbox (dets.getD k defaultDet).1 = 0
  | (some m, v) => m < j ∧ m ∉ used ∧
      v = _compute_iou tbox (dets.getD m defaultDet).1 ∧ 0 < v ∧
      (∀ k, k < j → k ∉ used → _compute_iou tbox (dets.getD k defaultDet).1 ≤ v) ∧
      (∀ k, k < m → k ∉ used → _compute_iou tbox (dets.getD k defaultDet).1 < v)

lemma bestInv_snd_nonneg {tbox : Box} {used : List Nat} {dets : List Det} {j : Nat}
    {best : Option Nat × ℚ} (h : BestInv tbox used dets j best) : 0 ≤ best.2 := by
  obtain ⟨b1, v⟩ := best
  cases b1 with
  | none => simp only [BestInv] at h; simp [h.1]
  | some m => simp only [BestInv] at h; exact h.2.2.2.1.le

lemma findBestAux_preserve (tbox : Box) (used : List Nat) (dets : List Det) :
    ∀ (ds : List Det) (j : Nat) (best : Option Nat × ℚ),
      dets.drop j = ds →
      BestInv tbox used dets j best →
      BestInv tbox used dets (j + ds.length) (findBestAux tbox used ds j best) := by
  intro ds
  induction ds with
  | nil =>
    intro j best hdrop hinv
    simpa [findBestAux] using hinv
  | cons d rest ih =>
    intro j best hdrop hinv
    have hjget : dets[j]? = some d := by
      have h0 : (dets.drop j)[0]? = some d := by rw [hdrop]; simp
      rw [List.getElem?_drop] at h0
      simpa using h0
    have hj : dets.getD j defaultDet = d := by
      simp [List.getD_eq_getElem?_getD, hjget]
    have hdrop' : dets.drop (j + 1) = rest := by
      have h1 : dets.drop (j + 1) = (dets.drop j).drop 1 := by
        rw [List.drop_drop, Nat.add_comm]
      rw [h1, hdrop, List.drop_one, List.tail_cons]
    have hvnn := bestInv_snd_nonneg hinv
    have hnew : BestInv tbox used dets (j + 1)
        (if j ∈ used then best
         else if _compute_iou tbox d.1 > best.2 then (some j, _compute_iou tbox d.1)
         else best) := by
      by_cases hu : j ∈ used
      · rw [if_pos hu]
        obtain ⟨b1, v⟩ := best
        cases b1 with
        | none =>
          obtain ⟨hv, hall⟩ := hinv
          refine ⟨hv, fun k hk hku => ?_⟩
          rcases Nat.lt_or_ge k j with h | h
          · exact hall k h hku
          · exact absurd hu ((by omega : k = j) ▸ hku)
        | some m =>
          obtain ⟨hm, hmu, hv, hpos, hle, hlt⟩ := hinv
          refine ⟨by omega, hmu, hv, hpos, fun k hk hku => ?_, hlt⟩
          rcases Nat.lt_or_ge k j with h | h
          · exact hle k h hku
          · exact absurd hu ((by omega : k = j) ▸ hku)
      · rw [if_neg hu]
        by_cases hgt : _compute_iou tbox d.1 > best.2
        · rw [if_pos hgt]
          refine ⟨by omega, hu, by rw [hj], by linarith, ?_, ?_⟩
          · intro k hk hku
            rcases Nat.lt_or_ge k j with h | h
            · have hkle : _compute_iou tbox (dets.getD k defaultDet).1 ≤ best.2 := by
                obtain ⟨b1, v⟩ := best
                cases b1 with
                | none =>
                  obtain ⟨hv, hall⟩ := hinv
                  rw [hall k h hku, hv]
                | some m =>
                  obtain ⟨hm, hmu, hv, hpos, hle, hlt⟩ := hinv
                  exact hle k h hku
              linarith
            · have hkj : k = j := by omega
              subst hkj
              rw [hj]
          · intro k hk hku
            have hkle : _compute_iou tbox (dets.getD k defaultDet).1 ≤ best.2 := by
              obtain ⟨b1, v⟩ := best
              cases b1 with
              | none =>
                obtain ⟨hv, hall⟩ := hinv
                rw [hall k hk hku, hv]
              | some m =>
                obtain ⟨hm, hmu, hv, hpos, hle, hlt⟩ := hinv
                exact hle k hk hku
            linarith
        · rw [if_neg hgt]
          push_neg at hgt
          obtain ⟨b1, v⟩ := best
          cases b1 with
          | none =>
            obtain ⟨hv, hall⟩ := hinv
            refine ⟨hv, fun k hk hku => ?_⟩
            rcases Nat.lt_or_ge k j with h | h
            · exact hall k h hku
            · have hkj : k = j := by omega
              subst hkj
              have h1 := iou_nonneg tbox d.1
              rw [hj]
              simp only at hgt
              rw [hv] at hgt
              linarith
          | some m =>
            obtain ⟨hm, hmu, hv, hpos, hle, hlt⟩ := hinv
            refine ⟨by omega, hmu, hv, hpos, fun k hk hku => ?_, hlt⟩
            rcases Nat.lt_or_ge k j with h | h
            · exact hle k h hku
            · have hkj : k = j := by omega
              subst hkj
              rw [hj]
              simpa using hgt
    have hfinal := ih (j + 1) _ hdrop' hnew
    have hlen : j + (d :: rest).length = j + 1 + rest.length := by
      simp only [List.length_cons]; omega
    rw [hlen]
    simpa only [findBestAux] using hfinal

/-- The scan result satisfies the invariant over the full detection list. -/
lemma findBest_spec (tbox : Box) (dets : List Det) (used : List Nat) :
    BestInv tbox used dets dets.length (findBest tbox dets used) := by
  have h := findBestAux_preserve tbox used dets dets 0 (none, 0) (by simp)
    ⟨rfl, fun k hk _ => absurd hk (by omega)⟩
  simpa [findBest] using h

/-! ## Case analysis of one track's matching step -/

/-- `matchOne` either leaves the track untouched, or updates it on a match,
firing the confirmation increment exactly when the track was uncounted and its
bumped hit counter meets `CONFIRM_HITS`. -/
lemma matchOne_cases (thr : ℚ) (fi : Nat) (dets : List Det) (used : List Nat) (t : Track) :
    matchOne thr fi dets used t = (t, none, 0) ∨
    (∃ j, matchOne thr fi dets used t =
        ({ t with
            bbox := (dets.getD j defaultDet).1
            last_seen := fi
            hits := t.hits + 1 }, some j, 0) ∧
        ¬(t.counted = false ∧ CONFIRM_HITS ≤ t.hits + 1)) ∨
    (∃ j, matchOne thr fi dets used t =
        ({ t with
            bbox := (dets.getD j defaultDet).1
            last_seen := fi
            hits := t.hits + 1
            counted := true }, some j, 1) ∧
        t.counted = false ∧ CONFIRM_HITS ≤ t.hits + 1) := by
  unfold matchOne
  rcases findBest t.bbox dets used with ⟨b1, v⟩
  cases b1 with
  | none => left; rfl
  | some j =>
    by_cases hthr : v ≥ thr
    · by_cases hc : t.counted = false ∧ CONFIRM_HITS ≤ t.hits + 1
      · right; right
        refine ⟨j, ?_, hc⟩
        simp only [matchOneAux, if_pos hthr]
        rw [if_pos]
        exact ⟨by simp [hc.1], hc.2⟩
      · right; left
        refine ⟨j, ?_, hc⟩
        simp only [matchOneAux, if_pos hthr]
        rw [if_neg]
        intro hcc
        exact hc ⟨by simpa using hcc.1, hcc.2⟩
    · left
      simp only [matchOneAux, if_neg hthr]

/-- On an assignment the consumed detection index is in range, unused, meets
the IoU threshold, is a first-found maximum among unused detections, and the
track is updated with the detection's box, the current frame and one more hit
(identity and prior-hit data preserved). -/
lemma matchOne_spec_some (thr : ℚ) (fi : Nat) (dets : List Det) (used : List Nat)
    (t : Track) (j : Nat)
    (h : (matchOne thr fi dets used t).2.1 = some j) :
    j < dets.length ∧ j ∉ used ∧
    thr ≤ _compute_iou t.bbox (dets.getD j defaultDet).1 ∧
    0 < _compute_iou t.bbox (dets.getD j defaultDet).1 ∧
    (∀ k, k < dets.length → k ∉ used →
      _compute_iou t.bbox (dets.getD k defaultDet).1 ≤
        _compute_iou t.bbox (dets.getD j defaultDet).1) ∧
    (∀ k, k < j → k ∉ used →
      _compute_iou t.bbox (dets.getD k defaultDet).1 <
        _compute_iou t.bbox (dets.getD j defaultDet).1) ∧
    (matchOne thr fi dets used t).1.bbox = (dets.getD j defaultDet).1 ∧
    (matchOne thr fi dets used t).1.last_seen = fi ∧
    (matchOne thr fi dets used t).1.hits = t.hits + 1 ∧
    (matchOne thr fi dets used t).1.id = t.id := by
  have hspec := findBest_spec t.bbox dets used
  unfold matchOne at h ⊢
  rcases hfb : findBest t.bbox dets used with ⟨b1, v⟩
  rw [hfb] at hspec h
  cases b1 with
  | none => simp [matchOneAux] at h
  | some m =>
    obtain ⟨hm, hmu, hv, hpos, hle, hlt⟩ := hspec
    simp only [matchOneAux] at h ⊢
    by_cases hthr : v ≥ thr
    · simp only [if_pos hthr] at h ⊢
      have hjm : m = j := by
        by_cases hc : ¬(t.counted = true) ∧ CONFIRM_HITS ≤ t.hits + 1
        · rw [if_pos hc] at h; simpa using h
        · rw [if_neg hc] at h; simpa using h
      subst hjm
      refine ⟨hm, hmu, by rw [← hv]; exact hthr, by rw [← hv]; exact hpos,
        fun k hk hku => by rw [← hv]; exact hle k hk hku,
        fun k hk hku => by rw [← hv]; exact hlt k hk hku, ?_, ?_, ?_, ?_⟩ <;>
        · by_cases hc : ¬(t.counted = true) ∧ CONFIRM_HITS ≤ t.hits + 1
          · rw [if_pos hc]
          · rw [if_neg hc]
    · simp only [if_neg hthr] at h
      simp at h

/-- When no assignment happens the track and the used set are untouched and,
for a positive threshold, every unused detection falls below it. -/
lemma matchOne_spec_none (thr : ℚ) (fi : Nat) (dets : List Det) (used : List Nat)
    (t : Track)
    (h : (matchOne thr fi dets used t).2.1 = none) :
    (matchOne thr fi dets used t).1 = t ∧
    (matchOne thr fi dets used t).2.2 = 0 ∧
    (0 < thr → ∀ k, k < dets.length → k ∉ used →
      _compute_iou t.bbox (dets.getD k defaultDet).1 < thr) := by
  have hspec := findBest_spec t.bbox dets used
  unfold matchOne at h ⊢
  rcases hfb : findBest t.bbox dets used with ⟨b1, v⟩
  rw [hfb] at hspec h
  cases b1 with
  | none =>
    obtain ⟨hv, hall⟩ := hspec
    exact ⟨rfl, rfl, fun hpos k hk hku => by rw [hall k hk hku]; exact hpos⟩
  | some m =>
    obtain ⟨hm, hmu, hv, hpos, hle, hlt⟩ := hspec
    simp only [matchOneAux] at h ⊢
    by_cases hthr : v ≥ thr
    · exfalso
      simp only [if_pos hthr] at h
      by_cases hc : ¬(t.counted = true) ∧ CONFIRM_HITS ≤ t.hits + 1
      · rw [if_pos hc] at h; simp at h
      · rw [if_neg hc] at h; simp at h
    · push_neg at hthr
      refine ⟨?_, ?_, fun _ k hk hku => lt_of_le_of_lt (hv ▸ hle k hk hku) hthr⟩ <;>
        simp only [if_neg (not_le.mpr hthr)]

/-! ## The greedy pass: structural lemmas -/

lemma matchAllAux_cons (thr : ℚ) (fi : Nat) (dets : List Det) (t : Track)
    (ts : List Track) (used : List Nat) :
    matchAllAux thr fi dets (t :: ts) used =
      ((matchOne thr fi dets used t).1 ::
         (matchAllAux thr fi dets ts (usedAfter used (matchOne thr fi dets used t))).1,
       (matchAllAux thr fi dets ts (usedAfter used (matchOne thr fi dets used t))).2.1,
       (matchOne thr fi dets used t).2.2 +
         (matchAllAux thr fi dets ts (usedAfter used (matchOne thr fi dets used t))).2.2) :=
  rfl

lemma matchAllAux_length (thr : ℚ) (fi : Nat) (dets : List Det) :
    ∀ (ts : List Track) (used : List Nat),
      (matchAllAux thr fi dets ts used).1.length = ts.length := by
  intro ts
  induction ts with
  | nil => intro used; rfl
  | cons t ts ih =>
    intro used
    rw [matchAllAux_cons]
    simp only [List.length_cons, ih]

lemma matchAllAux_used_spec (thr : ℚ) (fi : Nat) (dets : List Det) :
    ∀ (ts : List Track) (used : List Nat),
      (∀ j ∈ used, j < dets.length) → used.Nodup →
      (∀ j ∈ (matchAllAux thr fi dets ts used).2.1, j < dets.length) ∧
      (matchAllAux thr fi dets ts used).2.1.Nodup ∧
      used <+: (matchAllAux thr fi dets ts used).2.1 := by
  intro ts
  induction ts with
  | nil => intro used hb hn; exact ⟨hb, hn, List.prefix_rfl⟩
  | cons t ts ih =>
    intro used hb hn
    rw [matchAllAux_cons]
    rcases hro : (matchOne thr fi dets used t).2.1 with _ | j
    · have hua : usedAfter used (matchOne thr fi dets used t) = used := by
        unfold usedAfter
        rcases hmo : matchOne thr fi dets used t with ⟨t', j?, inc⟩
        rw [hmo] at hro
        simp only at hro
        rw [hro]
      rw [hua]
      exact ih used hb hn
    · obtain ⟨hjlt, hju, _⟩ := matchOne_spec_some thr fi dets used t j hro
      have hua : usedAfter used (matchOne thr fi dets used t) = used ++ [j] := by
        unfold usedAfter
        rcases hmo : matchOne thr fi dets used t with ⟨t', j?, inc⟩
        rw [hmo] at hro
        simp only at hro
        rw [hro]
      rw [hua]
      have hb' : ∀ i ∈ used ++ [j], i < dets.length := by
        intro i hi
        rcases List.mem_append.mp hi with h | h
        · exact hb i h
        · rw [List.mem_singleton.mp h]; exact hjlt
      have hn' : (used ++ [j]).Nodup := by
        simp [List.nodup_append, hn, hju]
      obtain ⟨r1, r2, r3⟩ := ih (used ++ [j]) hb' hn'
      exact ⟨r1, r2, List.IsPrefix.trans (List.prefix_append used [j]) r3⟩

/-- Per-track bookkeeping of the uncounted-track count against the increment:
a confirmation trades one uncounted track for one count. -/
lemma matchOne_counted_balance (thr : ℚ) (fi : Nat) (dets : List Det)
    (used : List Nat) (t : Track) :
    (matchOne thr fi dets used t).2.2 +
      (if !(matchOne thr fi dets used t).1.counted then 1 else 0) =
    (if !t.counted then 1 else 0) := by
  rcases matchOne_cases thr fi dets used t with h | ⟨j, h, hc⟩ | ⟨j, h, hc⟩
  · rw [h]; simp
  · rw [h]; simp
  · rw [h]
    simp [hc.1]

lemma matchOne_inc_le_one (thr : ℚ) (fi : Nat) (dets : List Det)
    (used : List Nat) (t : Track) :
    (matchOne thr fi dets used t).2.2 = 0 ∨ (matchOne thr fi dets used t).2.2 = 1 := by
  rcases matchOne_cases thr fi dets used t with h | ⟨j, h, hc⟩ | ⟨j, h, hc⟩ <;>
    rw [h] <;> simp

lemma matchOne_id_eq (thr : ℚ) (fi : Nat) (dets : List Det)
    (used : List Nat) (t : Track) :
    (matchOne thr fi dets used t).1.id = t.id := by
  rcases matchOne_cases thr fi dets used t with h | ⟨j, h, hc⟩ | ⟨j, h, hc⟩ <;> rw [h]

/-- The confirmation-state invariant of a reachable track: the counted flag is
set exactly on tracks whose hits reached the confirmation threshold. -/
def TrackInv (t : Track) : Prop := t.counted = true ↔ CONFIRM_HITS ≤ t.hits

lemma matchOne_trackInv (thr : ℚ) (fi : Nat) (dets : List Det)
    (used : List Nat) (t : Track) (hinv : TrackInv t) :
    TrackInv (matchOne thr fi dets used t).1 := by
  unfold TrackInv at *
  rcases matchOne_cases thr fi dets used t with h | ⟨j, h, hc⟩ | ⟨j, h, hc⟩
  · rw [h]; exact hinv
  · rw [h]
    show t.counted = true ↔ CONFIRM_HITS ≤ t.hits + 1
    cases hcv : t.counted with
    | false =>
      constructor
      · intro hf; exact absurd hf (by simp)
      · intro hle; exact absurd ⟨hcv, hle⟩ hc
    | true =>
      have h3 : CONFIRM_HITS ≤ t.hits := hinv.mp hcv
      exact ⟨fun _ => by omega, fun _ => rfl⟩
  · rw [h]
    show true = true ↔ CONFIRM_HITS ≤ t.hits + 1
    exact ⟨fun _ => hc.2, fun _ => rfl⟩

lemma matchAllAux_count_balance (thr : ℚ) (fi : Nat) (dets : List Det) :
    ∀ (ts : List Track) (used : List Nat),
      (matchAllAux thr fi dets ts used).2.2 +
        (matchAllAux thr fi dets ts used).1.countP (fun t => !t.counted) =
      ts.countP (fun t => !t.counted) := by
  intro ts
  induction ts with
  | nil => intro used; rfl
  | cons t ts ih =>
    intro used
    rw [matchAllAux_cons]
    simp only [List.countP_cons]
    have hbal := matchOne_counted_balance thr fi dets used t
    have hih := ih (usedAfter used (matchOne thr fi dets used t))
    cases h1 : (matchOne thr fi dets used t).1.counted <;>
      cases h2 : t.counted <;>
        rw [h1, h2] at hbal <;> simp [h1, h2] at hbal ⊢ <;> omega

lemma matchAllAux_trackInv (thr : ℚ) (fi : Nat) (dets : List Det) :
    ∀ (ts : List Track) (used : List Nat),
      (∀ t ∈ ts, TrackInv t) →
      ∀ t' ∈ (matchAllAux thr fi dets ts used).1, TrackInv t' := by
  intro ts
  induction ts with
  | nil => intro used _ t' h; simp [matchAllAux] at h
  | cons t ts ih =>
    intro used hall t' ht'
    rw [matchAllAux_cons] at ht'
    rcases List.mem_cons.mp ht' with h | h
    · rw [h]
      exact matchOne_trackInv thr fi dets used t (hall t (List.mem_cons_self t ts))
    · exact ih _ (fun u hu => hall u (List.mem_cons_of_mem t hu)) t' h

/-! ## Track creation and per-class step invariants -/

lemma createNewAux_spec (fi : Nat) (used : List Nat) :
    ∀ (ds : List Det) (j nid : Nat),
      (createNewAux fi used ds j nid).2 = nid + (createNewAux fi used ds j nid).1.length ∧
      (createNewAux fi used ds j nid).1.map Track.id =
        List.range' nid (createNewAux fi used ds j nid).1.length ∧
      ∀ t' ∈ (createNewAux fi used ds j nid).1,
        t'.hits = 1 ∧ t'.counted = false ∧ t'.last_seen = fi ∧
        nid ≤ t'.id ∧ t'.id < (createNewAux fi used ds j nid).2 := by
  intro ds
  induction ds with
  | nil =>
    intro j nid
    refine ⟨by simp [createNewAux], by simp [createNewAux, List.range'], ?_⟩
    intro t' ht'
    simp [createNewAux] at ht'
  | cons d ds ih =>
    intro j nid
    by_cases hu : j ∈ used
    · simpa [createNewAux, hu] using ih (j + 1) nid
    · obtain ⟨ih1, ih2, ih3⟩ := ih (j + 1) (nid + 1)
      refine ⟨?_, ?_, ?_⟩
      · simp only [createNewAux, if_neg hu, List.length_cons]
        omega
      · simp only [createNewAux, if_neg hu, List.length_cons, List.map_cons, List.range']
        rw [ih2]
      · intro t' ht'
        simp only [createNewAux, if_neg hu, List.mem_cons] at ht' ⊢
        rcases ht' with h | h
        · subst h
          refine ⟨rfl, rfl, rfl, le_rfl, ?_⟩
          show nid < (createNewAux fi used ds (j + 1) (nid + 1)).2
          omega
        · obtain ⟨a1, a2, a3, a4, a5⟩ := ih3 t' h
          exact ⟨a1, a2, a3, by omega, a5⟩

/-- The run-long confirmation-accounting invariant of a class state:
the unique count plus the live uncounted tracks stays below the next id. -/
def ClassInv (cs : ClassState) : Prop :=
  cs.unique + cs.tracks.countP (fun t => !t.counted) + 1 ≤ cs.next_id

lemma stepClass_fields (thr : ℚ) (fi : Nat) (dets : List Det) (cs : ClassState) :
    (stepClass thr fi dets cs).tracks =
      (matchAll thr fi dets
        (cs.tracks.filter fun t => fi - t.last_seen ≤ TRACK_TIMEOUT)).1 ++
      (createNew fi dets
        (matchAll thr fi dets
          (cs.tracks.filter fun t => fi - t.last_seen ≤ TRACK_TIMEOUT)).2.1 cs.next_id).1 ∧
    (stepClass thr fi dets cs).next_id =
      (createNew fi dets
        (matchAll thr fi dets
          (cs.tracks.filter fun t => fi - t.last_seen ≤ TRACK_TIMEOUT)).2.1 cs.next_id).2 ∧
    (stepClass thr fi dets cs).unique =
      cs.unique +
        (matchAll thr fi dets
          (cs.tracks.filter fun t => fi - t.last_seen ≤ TRACK_TIMEOUT)).2.2 :=
  ⟨rfl, rfl, rfl⟩

lemma stepClass_classInv (thr : ℚ) (fi : Nat) (dets : List Det) (cs : ClassState)
    (h : ClassInv cs) : ClassInv (stepClass thr fi dets cs) := by
  unfold ClassInv at *
  obtain ⟨htr, hni, huq⟩ := stepClass_fields thr fi dets cs
  rw [htr, hni, huq, List.countP_append]
  have hbal := matchAllAux_count_balance thr fi dets
    (cs.tracks.filter fun t => fi - t.last_seen ≤ TRACK_TIMEOUT) []
  have hsub : (cs.tracks.filter fun t => fi - t.last_seen ≤ TRACK_TIMEOUT).countP
      (fun t => !t.counted) ≤ cs.tracks.countP (fun t => !t.counted) :=
    (List.filter_sublist cs.tracks).countP_le _
  obtain ⟨hc1, _, hc3⟩ := createNewAux_spec fi
    (matchAll thr fi dets (cs.tracks.filter fun t => fi - t.last_seen ≤ TRACK_TIMEOUT)).2.1
    dets 0 cs.next_id
  have hcnt : (createNew fi dets
      (matchAll thr fi dets
        (cs.tracks.filter fun t => fi - t.last_seen ≤ TRACK_TIMEOUT)).2.1 cs.next_id).1.countP
      (fun t => !t.counted) =
      (createNew fi dets
        (matchAll thr fi dets
          (cs.tracks.filter fun t => fi - t.last_seen ≤ TRACK_TIMEOUT)).2.1 cs.next_id).1.length := by
    rw [List.countP_eq_length]
    intro t' ht'
    have := (hc3 t' ht').2.1
    simp [this]
  rw [hcnt]
  simp only [matchAll, createNew] at hc1 ⊢
  omega

lemma stepClass_unique_mono (thr : ℚ) (fi : Nat) (dets : List Det) (cs : ClassState) :
    cs.unique ≤ (stepClass thr fi dets cs).unique := by
  rw [(stepClass_fields thr fi dets cs).2.2]
  exact Nat.le_add_right _ _

lemma stepClass_next_id_mono (thr : ℚ) (fi : Nat) (dets : List Det) (cs : ClassState) :
    cs.next_id ≤ (stepClass thr fi dets cs).next_id := by
  rw [(stepClass_fields thr fi dets cs).2.1]
  obtain ⟨hc1, _, _⟩ := createNewAux_spec fi
    (matchAll thr fi dets (cs.tracks.filter fun t => fi - t.last_seen ≤ TRACK_TIMEOUT)).2.1
    dets 0 cs.next_id
  unfold createNew
  omega

lemma stepClass_trackInv (thr : ℚ) (fi : Nat) (dets : List Det) (cs : ClassState)
    (h : ∀ t ∈ cs.tracks, TrackInv t) :
    ∀ t ∈ (stepClass thr fi dets cs).tracks, TrackInv t := by
  intro t ht
  rw [(stepClass_fields thr fi dets cs).1] at ht
  rcases List.mem_append.mp ht with h1 | h2
  · refine matchAllAux_trackInv thr fi dets _ [] ?_ t h1
    intro u hu
    exact h u (List.mem_of_mem_filter hu)
  · obtain ⟨hc1, hc2, hc3, _, _⟩ := (createNewAux_spec fi
      (matchAll thr fi dets
        (cs.tracks.filter fun t => fi - t.last_seen ≤ TRACK_TIMEOUT)).2.1
      dets 0 cs.next_id).2.2 t h2
    unfold TrackInv
    rw [hc1, hc2]
    unfold CONFIRM_HITS
    constructor
    · intro hf; exact absurd hf (by simp)
    · intro hle; omega

/-! ## Run-level invariant preservation -/

lemma foldFrames_classInv (cg mc it : ℚ) (fa s : Nat) :
    ∀ (frames : List (List RawDet)) (st : RunState),
      (∀ c, ClassInv (st.states c)) →
      ∀ c, ClassInv ((frames.foldl (stepFrame cg mc it fa s) st).states c) := by
  intro frames
  induction frames with
  | nil => intro st h c; exact h c
  | cons f fs ih =>
    intro st h c
    rw [List.foldl_cons]
    refine ih _ (fun c' => ?_) c
    exact stepClass_classInv it st.frame_idx _ (st.states c') (h c')

lemma foldFrames_trackInv (cg mc it : ℚ) (fa s : Nat) :
    ∀ (frames : List (List RawDet)) (st : RunState),
      (∀ c, ∀ t ∈ (st.states c).tracks, TrackInv t) →
      ∀ c, ∀ t ∈ ((frames.foldl (stepFrame cg mc it fa s) st).states c).tracks, TrackInv t := by
  intro frames
  induction frames with
  | nil => intro st h c; exact h c
  | cons f fs ih =>
    intro st h c
    rw [List.foldl_cons]
    refine ih _ (fun c' => ?_) c
    exact stepClass_trackInv it st.frame_idx _ (st.states c') (h c')

lemma foldFrames_unique_mono (cg mc it : ℚ) (fa s : Nat) :
    ∀ (frames : List (List RawDet)) (st : RunState) (c : VClass),
      (st.states c).unique ≤ ((frames.foldl (stepFrame cg mc it fa s) st).states c).unique := by
  intro frames
  induction frames with
  | nil => intro st c; exact le_rfl
  | cons f fs ih =>
    intro st c
    rw [List.foldl_cons]
    have h1 : (st.states c).unique ≤ ((stepFrame cg mc it fa s st f).states c).unique :=
      stepClass_unique_mono it st.frame_idx _ (st.states c)
    exact le_trans h1 (ih (stepFrame cg mc it fa s st f) c)

lemma foldFrames_next_id_mono (cg mc it : ℚ) (fa s : Nat) :
    ∀ (frames : List (List RawDet)) (st : RunState) (c : VClass),
      (st.states c).next_id ≤ ((frames.foldl (stepFrame cg mc it fa s) st).states c).next_id := by
  intro frames
  induction frames with
  | nil => intro st c; exact le_rfl
  | cons f fs ih =>
    intro st c
    rw [List.foldl_cons]
    have h1 : (st.states c).next_id ≤ ((stepFrame cg mc it fa s st f).states c).next_id :=
      stepClass_next_id_mono it st.frame_idx _ (st.states c)
    exact le_trans h1 (ih (stepFrame cg mc it fa s st f) c)

/-! ## C10: unique counts vs created tracks -/

/-- C10: at every frame boundary of a run each class's unique count is at most
the number of tracks ever created for it (`next_track_id − 1`, ids starting at
1), and both quantities never decrease as the run is extended. -/
theorem C10_unique_le_created (conf_global motorcycle_conf iou_thresh : ℚ)
    (fps frame_area : Nat) (frames extra : List (List RawDet)) (c : VClass) :
    1 ≤ (((frames.foldl (stepFrame conf_global motorcycle_conf iou_thresh frame_area
        (max 1 (fps / 5))) initRunState).states c).next_id) ∧
    (((frames.foldl (stepFrame conf_global motorcycle_conf iou_thresh frame_area
        (max 1 (fps / 5))) initRunState).states c).unique) ≤
      (((frames.foldl (stepFrame conf_global motorcycle_conf iou_thresh frame_area
        (max 1 (fps / 5))) initRunState).states c).next_id) - 1 ∧
    (((frames.foldl (stepFrame conf_global motorcycle_conf iou_thresh frame_area
        (max 1 (fps / 5))) initRunState).states c).unique) ≤
      ((((frames ++ extra).foldl (stepFrame conf_global motorcycle_conf iou_thresh frame_area
        (max 1 (fps / 5))) initRunState).states c).unique) ∧
    (((frames.foldl (stepFrame conf_global motorcycle_conf iou_thresh frame_area
        (max 1 (fps / 5))) initRunState).states c).next_id) ≤
      ((((frames ++ extra).foldl (stepFrame conf_global motorcycle_conf iou_thresh frame_area
        (max 1 (fps / 5))) initRunState).states c).next_id) := by
  have hinit : ∀ c', ClassInv (initRunState.states c') := by
    intro c'
    simp [ClassInv, initRunState, initClassState]
  have hinv := foldFrames_classInv conf_global motorcycle_conf iou_thresh frame_area
    (max 1 (fps / 5)) frames initRunState hinit c
  unfold ClassInv at hinv
  refine ⟨by omega, by omega, ?_, ?_⟩
  · rw [List.foldl_append]
    exact foldFrames_unique_mono conf_global motorcycle_conf iou_thresh frame_area
      (max 1 (fps / 5)) extra _ c
  · rw [List.foldl_append]
    exact foldFrames_next_id_mono conf_global motorcycle_conf iou_thresh frame_area
      (max 1 (fps / 5)) extra _ c

/-! ## C1: the unique-count transition -/

/-- C1: a class's unique total changes only at the instant a matched track's
hit counter first reaches the confirmation threshold with its counted flag
still false; at that instant the total grows by exactly 1 and the flag is set;
it is never decremented, and a counted track never contributes again.  The
hypothesis is the reachable-track invariant discharged by the last conjunct. -/
theorem C1_unique_count_transition (iou_thresh : ℚ) (frame_idx : Nat)
    (dets : List Det) (used : List Nat) (t : Track)
    (hinv : t.counted = false → t.hits < CONFIRM_HITS) :
    ((matchOne iou_thresh frame_idx dets used t).2.2 = 1 ↔
      ((matchOne iou_thresh frame_idx dets used t).2.1.isSome ∧ t.counted = false ∧
       (matchOne iou_thresh frame_idx dets used t).1.hits = CONFIRM_HITS)) ∧
    ((matchOne iou_thresh frame_idx dets used t).2.2 = 0 ∨
     (matchOne iou_thresh frame_idx dets used t).2.2 = 1) ∧
    ((matchOne iou_thresh frame_idx dets used t).2.2 = 1 →
      (matchOne iou_thresh frame_idx dets used t).1.counted = true) ∧
    (t.counted = true → (matchOne iou_thresh frame_idx dets used t).2.2 = 0 ∧
      (matchOne iou_thresh frame_idx dets used t).1.counted = true) ∧
    (∀ (dets' : List Det) (cs : ClassState),
      (stepClass iou_thresh frame_idx dets' cs).unique =
        cs.unique + (matchAll iou_thresh frame_idx dets'
          (cs.tracks.filter fun tr => frame_idx - tr.last_seen ≤ TRACK_TIMEOUT)).2.2 ∧
      cs.unique ≤ (stepClass iou_thresh frame_idx dets' cs).unique) ∧
    (∀ (cg mc : ℚ) (fa sample : Nat) (frames : List (List RawDet)) (c : VClass),
      ∀ tr ∈ ((frames.foldl (stepFrame cg mc iou_thresh fa sample)
          initRunState).states c).tracks,
        (tr.counted = true ↔ CONFIRM_HITS ≤ tr.hits)) := by
  refine ⟨?_, matchOne_inc_le_one iou_thresh frame_idx dets used t, ?_, ?_, ?_, ?_⟩
  · rcases matchOne_cases iou_thresh frame_idx dets used t with h | ⟨j, h, hc⟩ | ⟨j, h, hc⟩
    · simp [h]
    · rw [h]
      constructor
      · intro h01
        exact absurd h01 (by simp)
      · rintro ⟨-, hcf, hhits⟩
        have hh : t.hits + 1 = CONFIRM_HITS := hhits
        exact absurd ⟨hcf, by omega⟩ hc
    · rw [h]
      have hlt : t.hits < CONFIRM_HITS := hinv hc.1
      constructor
      · intro _
        refine ⟨by simp, hc.1, ?_⟩
        show t.hits + 1 = CONFIRM_HITS
        omega
      · intro _
        rfl
  · intro h1
    rcases matchOne_cases iou_thresh frame_idx dets used t with h | ⟨j, h, hc⟩ | ⟨j, h, hc⟩
    · simp [h] at h1
    · simp [h] at h1
    · simp [h]
  · intro hct
    rcases matchOne_cases iou_thresh frame_idx dets used t with h | ⟨j, h, hc⟩ | ⟨j, h, hc⟩
    · exact ⟨by simp [h], by simp [h, hct]⟩
    · exact ⟨by simp [h], by simp [h, hct]⟩
    · simp [hct] at hc
  · intro dets' cs
    exact ⟨(stepClass_fields iou_thresh frame_idx dets' cs).2.2,
      stepClass_unique_mono iou_thresh frame_idx dets' cs⟩
  · intro cg mc fa sample frames c tr htr
    exact foldFrames_trackInv cg mc iou_thresh fa sample frames initRunState
      (by intro c' t' ht'; simp [initRunState, initClassState] at ht') c tr htr

/-- Witness for C1 on a track with two prior hits being confirmed. -/
theorem C1_unique_count_transition_witness :
    ((matchOne (3/10) 5 [(⟨0, 0, 10, 10⟩, (9/10 : ℚ))] []
        ⟨1, ⟨0, 0, 10, 10⟩, 4, 2, false⟩).2.2 = 1 ↔
      ((matchOne (3/10) 5 [(⟨0, 0, 10, 10⟩, (9/10 : ℚ))] []
          ⟨1, ⟨0, 0, 10, 10⟩, 4, 2, false⟩).2.1.isSome ∧
       (⟨1, ⟨0, 0, 10, 10⟩, 4, 2, false⟩ : Track).counted = false ∧
       (matchOne (3/10) 5 [(⟨0, 0, 10, 10⟩, (9/10 : ℚ))] []
          ⟨1, ⟨0, 0, 10, 10⟩, 4, 2, false⟩).1.hits = CONFIRM_HITS)) ∧
    ((matchOne (3/10) 5 [(⟨0, 0, 10, 10⟩, (9/10 : ℚ))] []
        ⟨1, ⟨0, 0, 10, 10⟩, 4, 2, false⟩).2.2 = 0 ∨
     (matchOne (3/10) 5 [(⟨0, 0, 10, 10⟩, (9/10 : ℚ))] []
        ⟨1, ⟨0, 0, 10, 10⟩, 4, 2, false⟩).2.2 = 1) ∧
    ((matchOne (3/10) 5 [(⟨0, 0, 10, 10⟩, (9/10 : ℚ))] []
        ⟨1, ⟨0, 0, 10, 10⟩, 4, 2, false⟩).2.2 = 1 →
      (matchOne (3/10) 5 [(⟨0, 0, 10, 10⟩, (9/10 : ℚ))] []
        ⟨1, ⟨0, 0, 10, 10⟩, 4, 2, false⟩).1.counted = true) ∧
    ((⟨1, ⟨0, 0, 10, 10⟩, 4, 2, false⟩ : Track).counted = true →
      (matchOne (3/10) 5 [(⟨0, 0, 10, 10⟩, (9/10 : ℚ))] []
        ⟨1, ⟨0, 0, 10, 10⟩, 4, 2, false⟩).2.2 = 0 ∧
      (matchOne (3/10) 5 [(⟨0, 0, 10, 10⟩, (9/10 : ℚ))] []
        ⟨1, ⟨0, 0, 10, 10⟩, 4, 2, false⟩).1.counted = true) ∧
    (∀ (dets' : List Det) (cs : ClassState),
      (stepClass (3/10) 5 dets' cs).unique =
        cs.unique + (matchAll (3/10) 5 dets'
          (cs.tracks.filter fun tr => 5 - tr.last_seen ≤ TRACK_TIMEOUT)).2.2 ∧
      cs.unique ≤ (stepClass (3/10) 5 dets' cs).unique) ∧
    (∀ (cg mc : ℚ) (fa sample : Nat) (frames : List (List RawDet)) (c : VClass),
      ∀ tr ∈ ((frames.foldl (stepFrame cg mc (3/10) fa sample)
          initRunState).states c).tracks,
        (tr.counted = true ↔ CONFIRM_HITS ≤ tr.hits)) :=
  C1_unique_count_transition (3/10) 5 [(⟨0, 0, 10, 10⟩, (9/10 : ℚ))] []
    ⟨1, ⟨0, 0, 10, 10⟩, 4, 2, false⟩ (by decide)

/-! ## C2: the greedy assignment contract -/

/-- C2: per class and frame the matcher visits surviving tracks in store
order; each track takes the unused detection of highest IoU (first-found
maximum on ties), only when that IoU meets the threshold; a consumed detection
is never reassigned; and an assignment updates box, last-seen and hits. -/
theorem C2_greedy_assignment (iou_thresh : ℚ) (frame_idx : Nat) (dets : List Det)
    (used : List Nat) (t : Track) (ts : List Track)
    (hthr : 0 < iou_thresh) :
    (∀ j, (matchOne iou_thresh frame_idx dets used t).2.1 = some j →
      j < dets.length ∧ j ∉ used ∧
      iou_thresh ≤ _compute_iou t.bbox (dets.getD j defaultDet).1 ∧
      (∀ k, k < dets.length → k ∉ used →
        _compute_iou t.bbox (dets.getD k defaultDet).1 ≤
          _compute_iou t.bbox (dets.getD j defaultDet).1) ∧
      (∀ k, k < j → k ∉ used →
        _compute_iou t.bbox (dets.getD k defaultDet).1 <
          _compute_iou t.bbox (dets.getD j defaultDet).1) ∧
      (matchOne iou_thresh frame_idx dets used t).1.bbox = (dets.getD j defaultDet).1 ∧
      (matchOne iou_thresh frame_idx dets used t).1.last_seen = frame_idx ∧
      (matchOne iou_thresh frame_idx dets used t).1.hits = t.hits + 1 ∧
      usedAfter used (matchOne iou_thresh frame_idx dets used t) = used ++ [j]) ∧
    ((matchOne iou_thresh frame_idx dets used t).2.1 = none →
      (matchOne iou_thresh frame_idx dets used t).1 = t ∧
      usedAfter used (matchOne iou_thresh frame_idx dets used t) = used ∧
      ∀ k, k < dets.length → k ∉ used →
        _compute_iou t.bbox (dets.getD k defaultDet).1 < iou_thresh) ∧
    (matchAllAux iou_thresh frame_idx dets (t :: ts) used =
      ((matchOne iou_thresh frame_idx dets used t).1 ::
        (matchAllAux iou_thresh frame_idx dets ts
          (usedAfter used (matchOne iou_thresh frame_idx dets used t))).1,
       (matchAllAux iou_thresh frame_idx dets ts
          (usedAfter used (matchOne iou_thresh frame_idx dets used t))).2.1,
       (matchOne iou_thresh frame_idx dets used t).2.2 +
        (matchAllAux iou_thresh frame_idx dets ts
          (usedAfter used (matchOne iou_thresh frame_idx dets used t))).2.2)) ∧
    ((matchAll iou_thresh frame_idx dets ts).2.1.Nodup ∧
     ∀ j ∈ (matchAll iou_thresh frame_idx dets ts).2.1, j < dets.length) ∧
    (matchAll iou_thresh frame_idx dets ts).1.length = ts.length := by
  refine ⟨?_, ?_, matchAllAux_cons iou_thresh frame_idx dets t ts used, ?_, ?_⟩
  · intro j hj
    obtain ⟨h1, h2, h3, _, h5, h6, h7, h8, h9, _⟩ :=
      matchOne_spec_some iou_thresh frame_idx dets used t j hj
    refine ⟨h1, h2, h3, h5, h6, h7, h8, h9, ?_⟩
    unfold usedAfter
    rcases hmo : matchOne iou_thresh frame_idx dets used t with ⟨t', j?, inc⟩
    rw [hmo] at hj
    simp only at hj
    rw [hj]
  · intro hn
    obtain ⟨h1, _, h3⟩ := matchOne_spec_none iou_thresh frame_idx dets used t hn
    refine ⟨h1, ?_, h3 hthr⟩
    unfold usedAfter
    rcases hmo : matchOne iou_thresh frame_idx dets used t with ⟨t', j?, inc⟩
    rw [hmo] at hn
    simp only at hn
    rw [hn]
  · unfold matchAll
    obtain ⟨r1, r2, _⟩ := matchAllAux_used_spec iou_thresh frame_idx dets ts []
      (by intro j hj; simp at hj) List.nodup_nil
    exact ⟨r2, r1⟩
  · unfold matchAll
    exact matchAllAux_length iou_thresh frame_idx dets ts []

/-- Concrete box shared by the matcher witnesses. -/
def wBox : Box := ⟨0, 0, 10, 10⟩

/-- Concrete one-detection list shared by the matcher witnesses. -/
def wDets : List Det := [(wBox, 9/10)]

/-- Concrete unconfirmed track shared by the matcher witnesses. -/
def wTrack : Track := ⟨1, wBox, 6, 1, false⟩

/-- Witness for C2 on a one-track, one-detection matching step. -/
theorem C2_greedy_assignment_witness :
    (∀ j, (matchOne (3/10) 7 wDets [] wTrack).2.1 = some j →
      j < wDets.length ∧ j ∉ ([] : List Nat) ∧
      (3/10 : ℚ) ≤ _compute_iou wTrack.bbox (wDets.getD j defaultDet).1 ∧
      (∀ k, k < wDets.length → k ∉ ([] : List Nat) →
        _compute_iou wTrack.bbox (wDets.getD k defaultDet).1 ≤
          _compute_iou wTrack.bbox (wDets.getD j defaultDet).1) ∧
      (∀ k, k < j → k ∉ ([] : List Nat) →
        _compute_iou wTrack.bbox (wDets.getD k defaultDet).1 <
          _compute_iou wTrack.bbox (wDets.getD j defaultDet).1) ∧
      (matchOne (3/10) 7 wDets [] wTrack).1.bbox = (wDets.getD j defaultDet).1 ∧
      (matchOne (3/10) 7 wDets [] wTrack).1.last_seen = 7 ∧
      (matchOne (3/10) 7 wDets [] wTrack).1.hits = wTrack.hits + 1 ∧
      usedAfter [] (matchOne (3/10) 7 wDets [] wTrack) = [] ++ [j]) ∧
    ((matchOne (3/10) 7 wDets [] wTrack).2.1 = none →
      (matchOne (3/10) 7 wDets [] wTrack).1 = wTrack ∧
      usedAfter [] (matchOne (3/10) 7 wDets [] wTrack) = [] ∧
      ∀ k, k < wDets.length → k ∉ ([] : List Nat) →
        _compute_iou wTrack.bbox (wDets.getD k defaultDet).1 < 3/10) ∧
    (matchAllAux (3/10) 7 wDets (wTrack :: []) [] =
      ((matchOne (3/10) 7 wDets [] wTrack).1 ::
        (matchAllAux (3/10) 7 wDets []
          (usedAfter [] (matchOne (3/10) 7 wDets [] wTrack))).1,
       (matchAllAux (3/10) 7 wDets []
          (usedAfter [] (matchOne (3/10) 7 wDets [] wTrack))).2.1,
       (matchOne (3/10) 7 wDets [] wTrack).2.2 +
        (matchAllAux (3/10) 7 wDets []
          (usedAfter [] (matchOne (3/10) 7 wDets [] wTrack))).2.2)) ∧
    ((matchAll (3/10) 7 wDets []).2.1.Nodup ∧
     ∀ j ∈ (matchAll (3/10) 7 wDets []).2.1, j < wDets.length) ∧
    (matchAll (3/10) 7 wDets []).1.length = ([] : List Track).length :=
  C2_greedy_assignment (3/10) 7 wDets [] wTrack [] (by norm_num)

/-! ## C7: aging and fresh identities -/

lemma matchAllAux_ids (thr : ℚ) (fi : Nat) (dets : List Det) :
    ∀ (ts : List Track) (used : List Nat),
      ∀ t' ∈ (matchAllAux thr fi dets ts used).1, ∃ t ∈ ts, t'.id = t.id := by
  intro ts
  induction ts with
  | nil => intro used t' h; simp [matchAllAux] at h
  | cons t ts ih =>
    intro used t' ht'
    rw [matchAllAux_cons] at ht'
    rcases List.mem_cons.mp ht' with h | h
    · exact ⟨t, List.mem_cons_self t ts, by rw [h]; exact matchOne_id_eq thr fi dets used t⟩
    · obtain ⟨u, hu, he⟩ := ih _ t' h
      exact ⟨u, List.mem_cons_of_mem t hu, he⟩

/-- C7: tracks idle longer than the timeout are dropped before matching (the
step is unchanged by pre-dropping them, so they have no further effect and can
never be matched again); unmatched detections become brand-new tracks with the
next sequential ids, hits 1, counted false, last-seen the current frame; and
ids never repeat: every live id stays below the non-decreasing next id. -/
theorem C7_aging_and_fresh_identity (iou_thresh : ℚ) (frame_idx : Nat)
    (dets : List Det) (cs : ClassState) (used : List Nat) (nid : Nat)
    (hid : ∀ t ∈ cs.tracks, t.id < cs.next_id) :
    (stepClass iou_thresh frame_idx dets cs =
      stepClass iou_thresh frame_idx dets
        { cs with tracks :=
            cs.tracks.filter fun t => frame_idx - t.last_seen ≤ TRACK_TIMEOUT }) ∧
    ((stepClass iou_thresh frame_idx dets cs).tracks =
      (matchAll iou_thresh frame_idx dets
        (cs.tracks.filter fun t => frame_idx - t.last_seen ≤ TRACK_TIMEOUT)).1 ++
      (createNew frame_idx dets
        (matchAll iou_thresh frame_idx dets
          (cs.tracks.filter fun t => frame_idx - t.last_seen ≤ TRACK_TIMEOUT)).2.1
        cs.next_id).1) ∧
    ((createNew frame_idx dets used nid).1.map Track.id =
      List.range' nid (createNew frame_idx dets used nid).1.length) ∧
    ((createNew frame_idx dets used nid).2 =
      nid + (createNew frame_idx dets used nid).1.length) ∧
    (∀ t' ∈ (createNew frame_idx dets used nid).1,
      t'.hits = 1 ∧ t'.counted = false ∧ t'.last_seen = frame_idx ∧
      nid ≤ t'.id ∧ t'.id < (createNew frame_idx dets used nid).2) ∧
    (∀ t ∈ (stepClass iou_thresh frame_idx dets cs).tracks,
      t.id < (stepClass iou_thresh frame_idx dets cs).next_id) ∧
    cs.next_id ≤ (stepClass iou_thresh frame_idx dets cs).next_id := by
  have hff : (cs.tracks.filter fun t => frame_idx - t.last_seen ≤ TRACK_TIMEOUT).filter
      (fun t => frame_idx - t.last_seen ≤ TRACK_TIMEOUT) =
      cs.tracks.filter fun t => frame_idx - t.last_seen ≤ TRACK_TIMEOUT :=
    List.filter_eq_self.mpr fun a ha => (List.mem_filter.mp ha).2
  obtain ⟨hc1, hc2, hc3⟩ := createNewAux_spec frame_idx used dets 0 nid
  refine ⟨?_, (stepClass_fields iou_thresh frame_idx dets cs).1, ?_, ?_, ?_, ?_, ?_⟩
  · simp only [stepClass]
    rw [hff]
  · unfold createNew
    exact hc2
  · unfold createNew
    exact hc1
  · unfold createNew
    exact hc3
  · intro t ht
    rw [(stepClass_fields iou_thresh frame_idx dets cs).1] at ht
    rw [(stepClass_fields iou_thresh frame_idx dets cs).2.1]
    rcases List.mem_append.mp ht with h1 | h2
    · obtain ⟨u, hu, he⟩ := matchAllAux_ids iou_thresh frame_idx dets _ [] t h1
      have hu' : u ∈ cs.tracks := List.mem_of_mem_filter hu
      have hlt : u.id < cs.next_id := hid u hu'
      have hmono : cs.next_id ≤ (stepClass iou_thresh frame_idx dets cs).next_id :=
        stepClass_next_id_mono iou_thresh frame_idx dets cs
      rw [(stepClass_fields iou_thresh frame_idx dets cs).2.1] at hmono
      omega
    · obtain ⟨_, _, _, _, h5⟩ := (createNewAux_spec frame_idx
        (matchAll iou_thresh frame_idx dets
          (cs.tracks.filter fun t => frame_idx - t.last_seen ≤ TRACK_TIMEOUT)).2.1
        dets 0 cs.next_id).2.2 t h2
      exact h5
  · exact stepClass_next_id_mono iou_thresh frame_idx dets cs

/-- Witness for C7 with one stale stored track and one fresh detection. -/
theorem C7_aging_and_fresh_identity_witness :
    (stepClass (3/10) 40 wDets ⟨[wTrack], 2, 0⟩ =
      stepClass (3/10) 40 wDets
        { (⟨[wTrack], 2, 0⟩ : ClassState) with tracks := ((⟨[wTrack], 2, 0⟩ : ClassState).tracks.filter (fun t => 40 - t.last_seen ≤ TRACK_TIMEOUT)) }) ∧
    ((stepClass (3/10) 40 wDets ⟨[wTrack], 2, 0⟩).tracks =
      (matchAll (3/10) 40 wDets
        ((⟨[wTrack], 2, 0⟩ : ClassState).tracks.filter
          fun t => 40 - t.last_seen ≤ TRACK_TIMEOUT)).1 ++
      (createNew 40 wDets
        (matchAll (3/10) 40 wDets
          ((⟨[wTrack], 2, 0⟩ : ClassState).tracks.filter
            fun t => 40 - t.last_seen ≤ TRACK_TIMEOUT)).2.1
        (⟨[wTrack], 2, 0⟩ : ClassState).next_id).1) ∧
    ((createNew 40 wDets [] 5).1.map Track.id =
      List.range' 5 (createNew 40 wDets [] 5).1.length) ∧
    ((createNew 40 wDets [] 5).2 = 5 + (createNew 40 wDets [] 5).1.length) ∧
    (∀ t' ∈ (createNew 40 wDets [] 5).1,
      t'.hits = 1 ∧ t'.counted = false ∧ t'.last_seen = 40 ∧
      5 ≤ t'.id ∧ t'.id < (createNew 40 wDets [] 5).2) ∧
    (∀ t ∈ (stepClass (3/10) 40 wDets ⟨[wTrack], 2, 0⟩).tracks,
      t.id < (stepClass (3/10) 40 wDets ⟨[wTrack], 2, 0⟩).next_id) ∧
    (⟨[wTrack], 2, 0⟩ : ClassState).next_id ≤
      (stepClass (3/10) 40 wDets ⟨[wTrack], 2, 0⟩).next_id :=
  C7_aging_and_fresh_identity (3/10) 40 wDets ⟨[wTrack], 2, 0⟩ [] 5 (by decide)

end TrafficDensity
